import Mathlib

/-!
# goctl `model/sql/command`: table-pattern parsing, glob matching and the three pipelines

A shallow embedding of `tools/goctl/model/sql/command/command.go`.

* Go strings are byte sequences; they are modelled as lists of byte values.
* The Go standard-library functions the file calls (`utf8.DecodeRuneInString`,
  `strings.FieldsFunc`, `strings.TrimSuffix`, `filepath.Match` on a Unix build) are embedded
  from their standard-library sources; `strings.TrimSpace` is a field of the environment
  record.
* Collaborators that live in other packages (DSN parsing, the information-schema models, the
  file matcher, the generator) are fields of an environment record; every call to one of them
  is appended to a call history, and a collaborator may answer differently depending on that
  history.
-/

set_option autoImplicit false

namespace Goctl

/-! ## Go strings -/

/-- A Go string: an immutable sequence of bytes. -/
abbrev GoString := List Nat

/-- UTF-8 encoding of one code point. -/
def utf8Encode (c : Nat) : List Nat :=
  if c < 0x80 then [c]
  else if c < 0x800 then [0xC0 + c / 64, 0x80 + c % 64]
  else if c < 0x10000 then [0xE0 + c / 4096, 0x80 + c / 64 % 64, 0x80 + c % 64]
  else [0xF0 + c / 262144, 0x80 + c / 4096 % 64, 0x80 + c / 64 % 64, 0x80 + c % 64]

/-- The bytes of a Go string literal (Go source text is UTF-8). -/
def go (s : String) : GoString :=
  s.toList.flatMap (fun c => utf8Encode c.toNat)

/-! ## `unicode/utf8` -/

/-- The constant `utf8.RuneError` (U+FFFD). -/
def RuneError : Nat := 0xFFFD

/-- The table `first` of `unicode/utf8`: information about the first byte of an encoding.
`0xF0` is `as` (ASCII), `0xF1` is `xx` (invalid), the other values carry the size in the low
three bits and the index of the accept range in the high four. -/
def first (b : Nat) : Nat :=
  if b < 0x80 then 0xF0
  else if b < 0xC2 then 0xF1
  else if b < 0xE0 then 0x02
  else if b = 0xE0 then 0x13
  else if b < 0xED then 0x03
  else if b = 0xED then 0x23
  else if b < 0xF0 then 0x03
  else if b = 0xF0 then 0x34
  else if b < 0xF4 then 0x04
  else if b = 0xF4 then 0x44
  else 0xF1

/-- The table `acceptRanges` of `unicode/utf8`: the allowed range of the second byte. -/
def acceptRanges (i : Nat) : Nat × Nat :=
  match i with
  | 0 => (0x80, 0xBF)
  | 1 => (0xA0, 0xBF)
  | 2 => (0x80, 0x9F)
  | 3 => (0x90, 0xBF)
  | 4 => (0x80, 0x8F)
  | _ => (0, 0)

/-- The function `utf8.DecodeRuneInString`: the first rune of `s` and its width in bytes.
An empty string gives `(RuneError, 0)`, an invalid encoding gives `(RuneError, 1)`.
The masks and shifts of the source act on disjoint bit fields and are written with
`%`, `*` and `+`. -/
def decodeRuneInString (s : GoString) : Nat × Nat :=
  match s with
  | [] => (RuneError, 0)
  | s0 :: t =>
    let x := first s0
    if x ≥ 0xF0 then
      (if x % 2 = 1 then RuneError else s0, 1)
    else
      let sz := x % 8
      let accept := acceptRanges (x / 16)
      if (s0 :: t).length < sz then (RuneError, 1)
      else
        match t with
        | [] => (RuneError, 1)
        | s1 :: t1 =>
          if s1 < accept.1 ∨ accept.2 < s1 then (RuneError, 1)
          else if sz ≤ 2 then ((s0 % 32) * 64 + s1 % 64, 2)
          else
            match t1 with
            | [] => (RuneError, 1)
            | s2 :: t2 =>
              if s2 < 0x80 ∨ 0xBF < s2 then (RuneError, 1)
              else if sz ≤ 3 then ((s0 % 16) * 4096 + (s1 % 64) * 64 + s2 % 64, 3)
              else
                match t2 with
                | [] => (RuneError, 1)
                | s3 :: _ =>
                  if s3 < 0x80 ∨ 0xBF < s3 then (RuneError, 1)
                  else ((s0 % 8) * 262144 + (s1 % 64) * 4096 + (s2 % 64) * 64 + s3 % 64, 4)

/-! ## `strings.FieldsFunc` -/

/-- State of the scanning loop of `strings.FieldsFunc`: the byte index reached (`pos`), the
number of bytes still belonging to the rune decoded last (`skip`), the start of the open span
(`start`, `none` standing for a negative value) and the spans recorded so far. -/
structure FieldsState where
  pos : Nat
  skip : Nat
  start : Option Nat
  spans : List (Nat × Nat)

/-- The loop `for end, rune := range s` of `strings.FieldsFunc`, walking the bytes of `s`: a
byte index at which a rune starts runs the loop body, the other bytes of the rune are passed
over. -/
def fieldsLoop (f : Nat → Bool) : GoString → FieldsState → FieldsState
  | [], st => st
  | b :: rest, st =>
    match st.skip with
    | k + 1 => fieldsLoop f rest { st with pos := st.pos + 1, skip := k }
    | 0 =>
      let (rune, width) := decodeRuneInString (b :: rest)
      let st1 : FieldsState :=
        if f rune then
          match st.start with
          | some s0 => { st with spans := st.spans ++ [(s0, st.pos)], start := none }
          | none => st
        else
          match st.start with
          | some _ => st
          | none => { st with start := some st.pos }
      fieldsLoop f rest { st1 with pos := st.pos + 1, skip := width - 1 }

/-- The slice expression `s[lo:hi]`. -/
def slice (s : GoString) (lo hi : Nat) : GoString :=
  (s.drop lo).take (hi - lo)

/-- The statement after the loop of `strings.FieldsFunc` ("last field might end at EOF"): the
recorded spans, with the open span closed at `len(s)`. -/
def FieldsState.close (st : FieldsState) (len : Nat) : List (Nat × Nat) :=
  match st.start with
  | some s0 => st.spans ++ [(s0, len)]
  | none => st.spans

/-- The function `strings.FieldsFunc`: the maximal runs of runes of `s` not satisfying `f`. -/
def fieldsFunc (s : GoString) (f : Nat → Bool) : List GoString :=
  let st := fieldsLoop f s { pos := 0, skip := 0, start := none, spans := [] }
  (st.close s.length).map (fun sp => slice s sp.1 sp.2)

/-! ## The pattern set -/

/-- The type `pattern` (`map[string]struct{}`): a set of strings, kept as a list of its
members. The order of the list stands for the unspecified order in which Go iterates a map. -/
abbrev pattern := List GoString

/-- The assignment `tablePattern[f] = struct{}{}`: insert a key into the set. -/
def pattern.insert (p : pattern) (f : GoString) : pattern :=
  if f ∈ p then p else p ++ [f]

/-- The byte `','`. -/
def comma : Nat := 44

/-- The function `parseTableList`. -/
def parseTableList (tableValue : List GoString) : pattern :=
  tableValue.foldl
    (fun tablePattern v =>
      (fieldsFunc v (fun r => r == comma)).foldl (fun tp f => pattern.insert tp f) tablePattern)
    []

/-! ## `path/filepath` (Unix build) -/

/-- The constant `filepath.Separator` on Unix, the byte `'/'`. -/
def Separator : Nat := 47

/-- Second result of `matchChunk`'s helper `getEsc`, and of `filepath.Match`: the only error
these functions produce is `filepath.ErrBadPattern`. -/
inductive GlobError where
  | errBadPattern
  deriving DecidableEq, Repr

/-- The function `getEsc` of `path/filepath`: a possibly escaped character of a character
class. `none` stands for the result `err = ErrBadPattern`; otherwise the rune and the rest of
the chunk are returned. -/
def getEsc (chunk : GoString) : Option (Nat × GoString) :=
  match chunk with
  | [] => none
  | c :: t =>
    if c = 45 ∨ c = 93 then none            -- '-' or ']'
    else
      let chunk1 := if c = 92 then t else c :: t     -- '\\'
      if chunk1.length = 0 then none
      else
        let (r, n) := decodeRuneInString chunk1
        if r = RuneError ∧ n = 1 then none
        else
          let nchunk := chunk1.drop n
          if nchunk.length = 0 then none else some (r, nchunk)

/-- The loop `for { ... }` of `matchChunk` that parses all ranges of a character class.
Arguments: the chunk after `[` and `^`, the rune `r` read from the name, the flag `match`
and the counter `nrange`. Result: outer `none` when the iteration budget is used up, inner
`none` for `ErrBadPattern`, otherwise the final `match` flag and the chunk after `]`. -/
def classLoop : Nat → GoString → Nat → Bool → Nat → Option (Option (Bool × GoString))
  | 0, _, _, _, _ => none
  | fuel + 1, chunk, r, mtch, nrange =>
    match chunk with
    | 93 :: t =>
      if nrange > 0 then some (some (mtch, t))
      else some none                       -- getEsc rejects a leading ']'
    | _ =>
      match getEsc chunk with
      | none => some none
      | some (lo, chunk1) =>
        match chunk1 with
        | 45 :: t1 =>
          match getEsc t1 with
          | none => some none
          | some (hi, chunk2) =>
            classLoop fuel chunk2 r (if lo ≤ r ∧ r ≤ hi then true else mtch) (nrange + 1)
        | _ => classLoop fuel chunk1 r (if lo ≤ r ∧ r ≤ lo then true else mtch) (nrange + 1)

/-- The three possible results `(rest, ok, err)` of `matchChunk`: `("", false, ErrBadPattern)`,
`("", false, nil)` and `(rest, true, nil)`. -/
inductive ChunkResult where
  | bad
  | noMatch
  | matched (rest : GoString)
  deriving DecidableEq, Repr

/-- The loop `for len(chunk) > 0` of `matchChunk` with its local variables `chunk`, `s` and
`failed`. `none` when the iteration budget is used up. -/
def matchChunkLoop : Nat → GoString → GoString → Bool → Option ChunkResult
  | 0, _, _, _ => none
  | fuel + 1, chunk, s, failed =>
    match chunk with
    | [] => some (if failed then .noMatch else .matched s)
    | c :: chunk1 =>
      let failed := if !failed ∧ s.length = 0 then true else failed
      if c = 91 then                       -- '['
        let rn : Nat × Nat := if !failed then decodeRuneInString s else (0, 0)
        let s := if !failed then s.drop rn.2 else s
        let negated : Bool := decide (chunk1.head? = some 94)       -- '^'
        let chunk2 := if negated then chunk1.drop 1 else chunk1
        match classLoop fuel chunk2 rn.1 false 0 with
        | none => none
        | some none => some .bad
        | some (some (mtch, chunk3)) =>
          matchChunkLoop fuel chunk3 s (if mtch = negated then true else failed)
      else if c = 63 then                  -- '?'
        if !failed then
          matchChunkLoop fuel chunk1 (s.drop (decodeRuneInString s).2)
            (if s.head? = some Separator then true else failed)
        else matchChunkLoop fuel chunk1 s failed
      else
        -- '\\' drops the backslash and falls through to the literal case
        let lit : GoString := if c = 92 then chunk1 else c :: chunk1
        match lit with
        | [] => some .bad
        | c0 :: chunk2 =>
          if !failed then
            matchChunkLoop fuel chunk2 (s.drop 1) (if some c0 ≠ s.head? then true else failed)
          else matchChunkLoop fuel chunk2 s failed

/-- The function `matchChunk` of `path/filepath`: does `chunk` match a prefix of `s`? -/
def matchChunk (chunk s : GoString) : ChunkResult :=
  (matchChunkLoop (chunk.length + 1) chunk s false).getD .bad

/-- The first loop of `scanChunk`: drop the leading stars and report whether there were any. -/
def scanStars : GoString → Bool × GoString
  | [] => (false, [])
  | c :: t => if c = 42 then (true, (scanStars t).2) else (false, c :: t)

/-- The loop labelled `Scan` of `scanChunk`: the index `i` at which the chunk ends. -/
def scanIndex : GoString → Bool → Nat
  | [], _ => 0
  | c :: t, inrange =>
    if c = 92 then                         -- '\\'
      match t with
      | [] => 1
      | _ :: t1 => 2 + scanIndex t1 inrange
    else if c = 91 then 1 + scanIndex t true           -- '['
    else if c = 93 then 1 + scanIndex t false          -- ']'
    else if c = 42 then                                -- '*'
      if !inrange then 0 else 1 + scanIndex t inrange
    else 1 + scanIndex t inrange

/-- The function `scanChunk` of `path/filepath`: the next segment of the pattern, a non-star
string possibly preceded by stars. Returns `(star, chunk, rest)`. -/
def scanChunk (pat : GoString) : Bool × GoString × GoString :=
  let (star, p) := scanStars pat
  let i := scanIndex p false
  (star, p.take i, p.drop i)

/-- Outcome of the star loop of `filepath.Match`. -/
inductive StarResult where
  | found (t : GoString)
  | bad
  | notFound
  deriving DecidableEq, Repr

/-- The loop `for i := 0; i < len(name) && name[i] != Separator; i++` of `filepath.Match`,
looking for a match of `chunk` after skipping `i+1` bytes; the argument is `name[i:]` and
`lastChunk` is `len(pattern) == 0`. -/
def starLoop (chunk : GoString) (lastChunk : Bool) : GoString → StarResult
  | [] => .notFound
  | c :: rest =>
    if c = Separator then .notFound
    else
      match matchChunk chunk rest with
      | .matched t =>
        if lastChunk ∧ t.length > 0 then starLoop chunk lastChunk rest else .found t
      | .bad => .bad
      | .noMatch => starLoop chunk lastChunk rest

/-- The loop labelled `Pattern` of `filepath.Match` (as in `path/filepath/match.go` since
Go 1.16: after a failed match the function returns `false, nil` at once). `none` when the
iteration budget is used up. -/
def matchLoop : Nat → GoString → GoString → Option (Bool × Option GlobError)
  | 0, _, _ => none
  | fuel + 1, pat, name =>
    if pat.length > 0 then
      match scanChunk pat with
      | (star, chunk, pat1) =>
        if star ∧ chunk = [] then
          some (!(name.contains Separator), none)
        else
          match matchChunk chunk name with
          | .matched t =>
            if t.length = 0 ∨ pat1.length > 0 then matchLoop fuel pat1 t
            else if star then
              match starLoop chunk (pat1.length = 0) name with
              | .found t1 => matchLoop fuel pat1 t1
              | .bad => some (false, some .errBadPattern)
              | .notFound => some (false, none)
            else some (false, none)
          | .bad => some (false, some .errBadPattern)
          | .noMatch =>
            if star then
              match starLoop chunk (pat1.length = 0) name with
              | .found t1 => matchLoop fuel pat1 t1
              | .bad => some (false, some .errBadPattern)
              | .notFound => some (false, none)
            else some (false, none)
    else some (name.length = 0, none)

/-- The function `filepath.Match`: `(matched, err)`. -/
def filepathMatch (pat name : GoString) : Bool × Option GlobError :=
  (matchLoop (pat.length + 1) pat name).getD (false, some .errBadPattern)

/-! ## Errors, calls and collaborators -/

/-- An error value created outside this package: `filepath.ErrBadPattern`, or any other error
a collaborator returns. The unexported values of this package are not among them. -/
inductive ForeignError where
  | errBadPattern
  | other (id : Nat)
  deriving DecidableEq, Repr

/-- The `error` values the functions of this package return. -/
inductive Error where
  /-- The package variable `errNotMatched = errors.New("sql not matched")`. -/
  | errNotMatched
  /-- A value `errors.New(text)` created inside a function of this package. -/
  | errorsNew (text : String)
  /-- An error handed through unchanged from a collaborator or from `filepath.Match`. -/
  | foreign (e : ForeignError)
  deriving DecidableEq, Repr

/-- The error of `filepath.Match` as an `error` value. -/
def GlobError.toError : GlobError → Error
  | .errBadPattern => .foreign .errBadPattern

/-- A call that leaves this package. The call history of a run lists them in order. -/
inductive Call where
  | newConsole (idea : Bool)
  | consoleError (msg : String)
  | filepathMatch (pat name : GoString)
  | matchFiles (src : GoString)
  | parseDSN (url : GoString)
  | logxDisable
  | newMysql (datasource : GoString)
  | postgresNew (url : GoString)
  | getAllTables (scope : GoString)
  | findColumns (scope table : GoString)
  | convert (table : GoString)
  | newDefaultGenerator (dir : GoString) (postgres : Bool)
  | startFromDDL (file : GoString) (cache : Bool) (database : GoString)
  | startFromInformationSchema (tables : List GoString) (cache : Bool)
  deriving DecidableEq, Repr

/-- The collaborators of the package. Each one receives the call history so far, so that its
answer may depend on everything that happened before (connections opened, files written).
`ColumnData`, `Table` and `Config` stand for `model.ColumnData`, `model.Table` and
`config.Config`. -/
structure Env (ColumnData Table Config : Type) where
  /-- The function `strings.TrimSpace`. -/
  trimSpace : GoString → GoString
  /-- The function `util.MatchFiles`. -/
  matchFiles : List Call → GoString → Except ForeignError (List GoString)
  /-- The function `mysql.ParseDSN`; of the result only `DBName` is used. -/
  parseDSN : List Call → GoString → Except ForeignError GoString
  /-- The method `GetAllTables` of the information-schema model in use. -/
  getAllTables : List Call → GoString → Except ForeignError (List GoString)
  /-- The method `FindColumns` of the information-schema model in use. -/
  findColumns : List Call → GoString → GoString → Except ForeignError ColumnData
  /-- The method `ColumnData.Convert`. -/
  convert : List Call → ColumnData → Except ForeignError Table
  /-- The function `gen.NewDefaultGenerator`; the flag tells whether `gen.WithPostgreSql()`
  is among the options. -/
  newDefaultGenerator : List Call → GoString → Config → Bool → Option ForeignError
  /-- The method `StartFromDDL` of the generator. -/
  startFromDDL : List Call → GoString → Bool → GoString → Option ForeignError
  /-- The method `StartFromInformationSchema` of the generator. -/
  startFromInformationSchema :
    List Call → List (GoString × Table) → Bool → Option ForeignError

/-! ## `pattern.Match` -/

/-- The text of `filepath.ErrBadPattern`, as printed by `console.Error("%+v", err)`. -/
def badPatternText : String := "syntax error in pattern"

/-- The method `pattern.Match`: the result, and the calls made on the way (one
`filepath.Match` per member visited, one `console.Error` per malformed member visited). -/
def pattern.Match : pattern → GoString → Bool × List Call
  | [], _ => (false, [])
  | v :: rest, s =>
    match filepathMatch v s with
    | (_, some _) =>
      let r := pattern.Match rest s
      (r.1, Call.filepathMatch v s :: Call.consoleError badPatternText :: r.2)
    | (true, none) => (true, [Call.filepathMatch v s])
    | (false, none) =>
      let r := pattern.Match rest s
      (r.1, Call.filepathMatch v s :: r.2)

/-- The method `pattern.list`. -/
def pattern.list (p : pattern) : List GoString :=
  p.foldl (fun ret v => ret ++ [v]) []

/-! ## The selection map -/

/-- The assignment `matchTables[item] = table` on a `map[string]*model.Table`, kept as a list
of entries with distinct keys. -/
def mapSet {Table : Type} (m : List (GoString × Table)) (item : GoString) (table : Table) :
    List (GoString × Table) :=
  match m with
  | [] => [(item, table)]
  | (k, v) :: rest => if k = item then (k, table) :: rest else (k, v) :: mapSet rest item table

/-- The keys of a selection map. -/
def mapKeys {Table : Type} (m : List (GoString × Table)) : List GoString :=
  m.map Prod.fst

/-! ## The pipelines -/

section Pipelines

variable {ColumnData Table Config : Type}

/-- The loop `for _, file := range files` of `fromDDL`. -/
def ddlLoop (env : Env ColumnData Table Config) (cache : Bool) (database : GoString) :
    List GoString → List Call → Option Error × List Call
  | [], h => (none, h)
  | file :: rest, h =>
    match env.startFromDDL h file cache database with
    | some e => (some (.foreign e), h ++ [Call.startFromDDL file cache database])
    | none => ddlLoop env cache database rest (h ++ [Call.startFromDDL file cache database])

/-- The function `fromDDL`: the returned error (`none` for `nil`) and the call history. -/
def fromDDL (env : Env ColumnData Table Config) (src dir : GoString) (cfg : Config)
    (cache idea : Bool) (database : GoString) : Option Error × List Call :=
  let h0 := [Call.newConsole idea]
  let src := env.trimSpace src
  if src.length = 0 then
    (some (.errorsNew "expected path or path globbing patterns, but nothing found"), h0)
  else
    let h1 := h0 ++ [Call.matchFiles src]
    match env.matchFiles h0 src with
    | .error e => (some (.foreign e), h1)
    | .ok files =>
      if files.length = 0 then (some .errNotMatched, h1)
      else
        let h2 := h1 ++ [Call.newDefaultGenerator dir false]
        match env.newDefaultGenerator h1 dir cfg false with
        | some e => (some (.foreign e), h2)
        | none => ddlLoop env cache database files h2

/-- The function `strings.TrimSuffix`. -/
def trimSuffix (s suffix : GoString) : GoString :=
  if suffix.isSuffixOf s then s.take (s.length - suffix.length) else s

/-- The loop `for _, item := range tables` of `fromMysqlDataSource`: the selection map or the
error that ended the loop, and the call history. -/
def mysqlScan (env : Env ColumnData Table Config) (dbName : GoString) (tablePat : pattern) :
    List GoString → List (GoString × Table) → List Call →
      Except Error (List (GoString × Table)) × List Call
  | [], matchTables, h => (.ok matchTables, h)
  | item :: rest, matchTables, h =>
    let r := tablePat.Match item
    let h1 := h ++ r.2
    if !r.1 then mysqlScan env dbName tablePat rest matchTables h1
    else
      let h2 := h1 ++ [Call.findColumns dbName item]
      match env.findColumns h1 dbName item with
      | .error e => (.error (.foreign e), h2)
      | .ok columnData =>
        let h3 := h2 ++ [Call.convert item]
        match env.convert h2 columnData with
        | .error e => (.error (.foreign e), h3)
        | .ok table => mysqlScan env dbName tablePat rest (mapSet matchTables item table) h3

/-- The function `fromMysqlDataSource`: the returned error (`none` for `nil`) and the call
history. -/
def fromMysqlDataSource (env : Env ColumnData Table Config) (url dir : GoString)
    (tablePat : pattern) (cfg : Config) (cache idea : Bool) : Option Error × List Call :=
  let h0 := [Call.newConsole idea]
  if url.length = 0 then
    (none, h0 ++ [Call.consoleError "expected data source of mysql, but nothing found"])
  else if tablePat.length = 0 then
    (none, h0 ++ [Call.consoleError "expected table or table globbing patterns, but nothing found"])
  else
    let h1 := h0 ++ [Call.parseDSN url]
    match env.parseDSN h0 url with
    | .error e => (some (.foreign e), h1)
    | .ok dbName =>
      let databaseSource := trimSuffix url (go "/" ++ dbName) ++ go "/information_schema"
      let h2 := h1 ++ [Call.logxDisable, Call.newMysql databaseSource]
      let h3 := h2 ++ [Call.getAllTables dbName]
      match env.getAllTables h2 dbName with
      | .error e => (some (.foreign e), h3)
      | .ok tables =>
        match mysqlScan env dbName tablePat tables [] h3 with
        | (.error e, h4) => (some e, h4)
        | (.ok matchTables, h4) =>
          if matchTables.length = 0 then (some (.errorsNew "no tables matched"), h4)
          else
            let h5 := h4 ++ [Call.newDefaultGenerator dir false]
            match env.newDefaultGenerator h4 dir cfg false with
            | some e => (some (.foreign e), h5)
            | none =>
              let h6 := h5 ++ [Call.startFromInformationSchema (mapKeys matchTables) cache]
              ((env.startFromInformationSchema h5 matchTables cache).map Error.foreign, h6)

/-- The loop `for _, item := range tables` of `fromPostgreSqlDataSource`. -/
def postgresScan (env : Env ColumnData Table Config) (schema pat : GoString) :
    List GoString → List (GoString × Table) → List Call →
      Except Error (List (GoString × Table)) × List Call
  | [], matchTables, h => (.ok matchTables, h)
  | item :: rest, matchTables, h =>
    let h1 := h ++ [Call.filepathMatch pat item]
    match filepathMatch pat item with
    | (_, some err) => (.error err.toError, h1)
    | (false, none) => postgresScan env schema pat rest matchTables h1
    | (true, none) =>
      let h2 := h1 ++ [Call.findColumns schema item]
      match env.findColumns h1 schema item with
      | .error e => (.error (.foreign e), h2)
      | .ok columnData =>
        let h3 := h2 ++ [Call.convert item]
        match env.convert h2 columnData with
        | .error e => (.error (.foreign e), h3)
        | .ok table => postgresScan env schema pat rest (mapSet matchTables item table) h3

/-- The function `fromPostgreSqlDataSource`: the returned error (`none` for `nil`) and the
call history. -/
def fromPostgreSqlDataSource (env : Env ColumnData Table Config) (url pat dir schema : GoString)
    (cfg : Config) (cache idea : Bool) : Option Error × List Call :=
  let h0 := [Call.newConsole idea]
  if url.length = 0 then
    (none, h0 ++ [Call.consoleError "expected data source of postgresql, but nothing found"])
  else if pat.length = 0 then
    (none, h0 ++ [Call.consoleError "expected table or table globbing patterns, but nothing found"])
  else
    let h1 := h0 ++ [Call.postgresNew url]
    let h2 := h1 ++ [Call.getAllTables schema]
    match env.getAllTables h1 schema with
    | .error e => (some (.foreign e), h2)
    | .ok tables =>
      match postgresScan env schema pat tables [] h2 with
      | (.error e, h3) => (some e, h3)
      | (.ok matchTables, h3) =>
        if matchTables.length = 0 then (some (.errorsNew "no tables matched"), h3)
        else
          let h4 := h3 ++ [Call.newDefaultGenerator dir true]
          match env.newDefaultGenerator h3 dir cfg true with
          | some e => (some (.foreign e), h4)
          | none =>
            let h5 := h4 ++ [Call.startFromInformationSchema (mapKeys matchTables) cache]
            ((env.startFromInformationSchema h4 matchTables cache).map Error.foreign, h5)

end Pipelines

/-! ## Notions used in the statements -/

/-- The tokens of one raw input in the words of the specification: split on commas, empty
tokens discarded. -/
def specTokens (inp : GoString) : List GoString :=
  (inp.splitOn comma).filter (fun t => decide (t ≠ []))

/-- The table `asciiSpace` of package `strings`: tab, line feed, vertical tab, form feed,
carriage return and space. -/
def asciiSpace (b : Nat) : Bool :=
  b == 9 || b == 10 || b == 11 || b == 12 || b == 13 || b == 32

/-- The bytes that open a character class or escape the next byte in a glob pattern: `[`
and `\`. -/
def isClassOrEscape (b : Nat) : Bool :=
  b == 91 || b == 92

/-- What `matchChunk` computes on a chunk without `[` and `\`: every `?` takes one rune other
than the separator from `s`, every other byte must be the next byte of `s`; the result is
the rest of `s`. -/
def simpleMatch : GoString → GoString → Option GoString
  | [], s => some s
  | c :: rest, s =>
    match s with
    | [] => none
    | b :: s1 =>
      if c = 63 then
        if b = Separator then none
        else simpleMatch rest ((b :: s1).drop (decodeRuneInString (b :: s1)).2)
      else if c = b then simpleMatch rest s1
      else none

/-- The calls a table scan makes by itself: glob tests, console output, column fetches and
conversions. -/
def Call.isScan : Call → Bool
  | .filepathMatch _ _ => true
  | .consoleError _ => true
  | .findColumns _ _ => true
  | .convert _ => true
  | _ => false

/-- The calls that fetch columns, convert them, or construct or invoke the generator. -/
def Call.isFetchOrGenerate : Call → Bool
  | .findColumns _ _ => true
  | .convert _ => true
  | .newDefaultGenerator _ _ => true
  | .startFromDDL _ _ _ => true
  | .startFromInformationSchema _ _ => true
  | _ => false

/-- The invocations of the generation backend. -/
def Call.isBackend : Call → Bool
  | .startFromDDL _ _ _ => true
  | .startFromInformationSchema _ _ => true
  | _ => false

/-! ## Sample environments -/

/-- A sample environment: three tables `users`, `user_roles`, `orders`, every collaborator
succeeds, the generator fails on request. -/
def sampleEnv (genFails : Bool) : Env Unit Unit Unit where
  trimSpace := fun s => s
  matchFiles := fun _ _ => .ok []
  parseDSN := fun _ _ => .ok (go "shop")
  getAllTables := fun _ _ => .ok [go "users", go "user_roles", go "orders"]
  findColumns := fun _ _ _ => .ok ()
  convert := fun _ _ => .ok ()
  newDefaultGenerator := fun _ _ _ _ => none
  startFromDDL := fun _ _ _ _ => none
  startFromInformationSchema := fun _ _ _ => if genFails then some (.other 1) else none

/-- A sample environment for the DDL pipeline: three files match, and the generator fails
on the second one. -/
def ddlEnv : Env Unit Unit Unit where
  trimSpace := fun s => s
  matchFiles := fun _ _ => .ok [go "a.sql", go "b.sql", go "c.sql"]
  parseDSN := fun _ _ => .ok (go "shop")
  getAllTables := fun _ _ => .ok []
  findColumns := fun _ _ _ => .ok ()
  convert := fun _ _ => .ok ()
  newDefaultGenerator := fun _ _ _ _ => none
  startFromDDL := fun _ file _ _ => if file = go "b.sql" then some (.other 7) else none
  startFromInformationSchema := fun _ _ _ => none

/-! # Theorems -/

/-! ## Lemmas on `utf8.DecodeRuneInString` and `strings.FieldsFunc` -/

theorem decode_ascii (b : Nat) (rest : GoString) (h : b < 0x80) :
    decodeRuneInString (b :: rest) = (b, 1) := by
  have hf : first b = 0xF0 := by simp [first, h]
  simp [decodeRuneInString, hf]

theorem first_nonascii (b : Nat) (h : 0x80 ≤ b) :
    first b = 0xF1 ∨ (first b = 0x02 ∧ 0xC2 ≤ b ∧ b < 0xE0) ∨
      (first b = 0x13 ∧ b = 0xE0) ∨ (first b = 0x03 ∧ 0xE1 ≤ b ∧ b < 0xF0) ∨
      (first b = 0x23 ∧ b = 0xED) ∨ (first b = 0x34 ∧ b = 0xF0) ∨
      (first b = 0x04 ∧ 0xF1 ≤ b ∧ b < 0xF4) ∨ (first b = 0x44 ∧ b = 0xF4) := by
  unfold first
  split_ifs <;> simp <;> omega

theorem decode_nonascii (b : Nat) (rest : GoString) (h : 0x80 ≤ b) :
    0x80 ≤ (decodeRuneInString (b :: rest)).1 ∧
      ∀ x ∈ rest.take ((decodeRuneInString (b :: rest)).2 - 1), 0x80 ≤ x := by
  rcases first_nonascii b h with hf | ⟨hf, h1, h2⟩ | ⟨hf, h1⟩ | ⟨hf, h1, h2⟩ | ⟨hf, h1⟩ |
    ⟨hf, h1⟩ | ⟨hf, h1, h2⟩ | ⟨hf, h1⟩
  all_goals
    simp only [decodeRuneInString, hf, RuneError, acceptRanges]
    norm_num
  all_goals
    rcases rest with _ | ⟨s1, _ | ⟨s2, _ | ⟨s3, t3⟩⟩⟩ <;> simp <;> (try split_ifs) <;>
      (try simp) <;> (try omega)

theorem specTokens_nil : specTokens [] = [] := by
  simp [specTokens, List.splitOn, List.splitOnP_nil]

theorem specTokens_comma_cons (r : GoString) : specTokens (comma :: r) = specTokens r := by
  simp [specTokens, List.splitOn, List.splitOnP_cons]

theorem specTokens_run_comma (cur r : GoString) (hne : cur ≠ [])
    (hc : ∀ x ∈ cur, x ≠ comma) : specTokens (cur ++ comma :: r) = cur :: specTokens r := by
  unfold specTokens List.splitOn
  rw [List.splitOnP_first (fun x => x == comma) cur (by simpa using hc) comma (by simp) r]
  simp [hne]

theorem specTokens_run (cur : GoString) (hne : cur ≠ [])
    (hc : ∀ x ∈ cur, x ≠ comma) : specTokens cur = [cur] := by
  unfold specTokens List.splitOn
  rw [List.splitOnP_eq_single (fun x => x == comma) cur (by simpa using hc)]
  simp [hne]


theorem slice_upto_drop (pre rest : GoString) (s0 : Nat) (h : s0 ≤ pre.length) :
    slice (pre ++ rest) s0 pre.length = pre.drop s0 := by
  unfold slice
  rw [List.drop_append_of_le_length h]
  rw [List.take_append_of_le_length (by simp)]
  rw [List.take_of_length_le (by simp)]

theorem slice_to_end (s : GoString) (s0 : Nat) : slice s s0 s.length = s.drop s0 := by
  unfold slice
  rw [List.take_of_length_le (by simp)]

theorem fieldsLoop_spec (s : GoString) (rest : GoString) :
    ∀ (pre : GoString) (st : FieldsState), s = pre ++ rest → st.pos = pre.length →
      (∀ x ∈ rest.take st.skip, x ≠ comma) →
      (0 < st.skip → st.start ≠ none) →
      (∀ s0, st.start = some s0 → s0 < pre.length ∧ ∀ x ∈ pre.drop s0, x ≠ comma) →
      ((fieldsLoop (fun r => r == comma) rest st).close s.length).map
          (fun sp => slice s sp.1 sp.2) =
        st.spans.map (fun sp => slice s sp.1 sp.2) ++
          specTokens ((match st.start with
            | some s0 => pre.drop s0
            | none => []) ++ rest) := by
  induction rest with
  | nil =>
    intro pre st hs hpos _ _ hstart
    simp only [fieldsLoop, List.append_nil] at hs ⊢
    subst hs
    cases hst : st.start with
    | none => simp [FieldsState.close, hst, specTokens_nil]
    | some s0 =>
      obtain ⟨hlt, hc⟩ := hstart s0 hst
      have hne : s.drop s0 ≠ [] := by
        intro h0
        have := congrArg List.length h0
        simp at this
        omega
      simp [FieldsState.close, hst, slice_to_end, specTokens_run _ hne hc]
  | cons b rest ih =>
    intro pre st hs hpos hskip hskip2 hstart
    have hs' : s = (pre ++ [b]) ++ rest := by simp [hs]
    have hdrop : ∀ s0, s0 < pre.length → (pre ++ [b]).drop s0 = pre.drop s0 ++ [b] := by
      intro s0 h0
      exact List.drop_append_of_le_length (by omega)
    have hlen : (pre ++ [b]).length = pre.length + 1 := by simp
    -- the step taken when the byte `b` extends the open field starting at `s0`
    have hextend : ∀ (s0 k : Nat) (st1 : FieldsState), st.start = some s0 → b ≠ comma →
        st1 = { st with pos := st.pos + 1, skip := k } →
        (∀ x ∈ rest.take k, x ≠ comma) →
        ((fieldsLoop (fun r => r == comma) rest st1).close s.length).map
            (fun sp => slice s sp.1 sp.2) =
          st.spans.map (fun sp => slice s sp.1 sp.2) ++
            specTokens (pre.drop s0 ++ b :: rest) := by
      intro s0 k st1 hst hb hst1 hk
      obtain ⟨hlt, hc⟩ := hstart s0 hst
      have := ih (pre ++ [b]) st1 hs' (by simp [hst1, hpos]) (by simpa [hst1] using hk)
        (by intro _; simp [hst1, hst])
        (by
          intro s1 h1
          have : s1 = s0 := by simpa [hst1, hst] using h1.symm
          subst this
          refine ⟨by omega, ?_⟩
          rw [hdrop s1 hlt]
          intro x hx
          rcases List.mem_append.mp hx with hx | hx
          · exact hc x hx
          · simp only [List.mem_singleton] at hx; subst hx; exact hb)
      rw [this]
      simp [hst1, hst, hdrop s0 hlt]
    cases hk : st.skip with
    | succ k =>
      have hb : b ≠ comma := hskip b (by simp [hk])
      obtain ⟨s0, hst⟩ := Option.ne_none_iff_exists'.mp (hskip2 (by omega))
      have hstep : fieldsLoop (fun r => r == comma) (b :: rest) st =
          fieldsLoop (fun r => r == comma) rest { st with pos := st.pos + 1, skip := k } := by
        simp [fieldsLoop, hk]
      rw [hstep, hextend s0 k _ hst hb rfl
        (by intro x hx; exact hskip x (by simp [hk, hx]))]
      simp [hst]
    | zero =>
      by_cases hb : b = comma
      · -- a comma closes the open field, if there is one
        subst hb
        have hd := decode_ascii comma rest (by decide)
        cases hst : st.start with
        | none =>
          have hstep : fieldsLoop (fun r => r == comma) (comma :: rest) st =
              fieldsLoop (fun r => r == comma) rest { st with pos := st.pos + 1, skip := 0 } := by
            simp [fieldsLoop, hk, hd, hst]
          rw [hstep, ih (pre ++ [comma]) _ hs' (by simp [hpos]) (by simp) (by simp)
            (by simp [hst])]
          simp [hst, specTokens_comma_cons]
        | some s0 =>
          obtain ⟨hlt, hc⟩ := hstart s0 hst
          have hstep : fieldsLoop (fun r => r == comma) (comma :: rest) st =
              fieldsLoop (fun r => r == comma) rest
                { st with spans := st.spans ++ [(s0, st.pos)], start := none,
                          pos := st.pos + 1, skip := 0 } := by
            simp [fieldsLoop, hk, hd, hst]
          have hne : pre.drop s0 ≠ [] := by
            intro h0
            have := congrArg List.length h0
            simp at this
            omega
          rw [hstep, ih (pre ++ [comma]) _ hs' (by simp [hpos]) (by simp) (by simp) (by simp)]
          simp [specTokens_run_comma _ rest hne hc, hs, hpos, slice_upto_drop pre
            (comma :: rest) s0 (by omega)]
      · -- any other rune opens a field or extends the open one
        have hrw : ((decodeRuneInString (b :: rest)).1 == comma) = false ∧
            ∀ x ∈ rest.take ((decodeRuneInString (b :: rest)).2 - 1), x ≠ comma := by
          by_cases hlt : b < 0x80
          · rw [decode_ascii b rest hlt]
            simp [hb]
          · have hdn := decode_nonascii b rest (by omega)
            refine ⟨?_, ?_⟩
            · have : (decodeRuneInString (b :: rest)).1 ≠ comma := by
                have := hdn.1
                simp only [comma]
                omega
              simpa using this
            · intro x hx
              have := hdn.2 x hx
              simp only [comma]
              omega
        cases hst : st.start with
        | none =>
          have hstep : fieldsLoop (fun r => r == comma) (b :: rest) st =
              fieldsLoop (fun r => r == comma) rest
                { st with start := some st.pos, pos := st.pos + 1,
                          skip := (decodeRuneInString (b :: rest)).2 - 1 } := by
            simp [fieldsLoop, hk, hrw.1, hst]
          rw [hstep, ih (pre ++ [b]) _ hs' (by simp [hpos]) (by simpa using hrw.2) (by simp)
            (by
              intro s1 h1
              have : s1 = pre.length := by simpa [hpos] using h1.symm
              subst this
              simp [hb])]
          simp [hst, hpos]
        | some s0 =>
          have hstep : fieldsLoop (fun r => r == comma) (b :: rest) st =
              fieldsLoop (fun r => r == comma) rest
                { st with pos := st.pos + 1,
                          skip := (decodeRuneInString (b :: rest)).2 - 1 } := by
            simp [fieldsLoop, hk, hrw.1, hst]
          rw [hstep, hextend s0 _ _ hst hb rfl hrw.2]

theorem fieldsFunc_eq_specTokens (s : GoString) :
    fieldsFunc s (fun r => r == comma) = specTokens s := by
  have := fieldsLoop_spec s s [] { pos := 0, skip := 0, start := none, spans := [] }
    (by simp) (by simp) (by simp) (by simp) (by simp)
  simpa [fieldsFunc] using this

theorem mem_pattern_insert (p : pattern) (f x : GoString) :
    x ∈ pattern.insert p f ↔ x ∈ p ∨ x = f := by
  unfold pattern.insert
  by_cases hf : f ∈ p
  · simp only [hf, if_true]
    constructor
    · exact Or.inl
    · rintro (h | rfl)
      · exact h
      · exact hf
  · simp [hf]

theorem mem_foldl_insert (fs : List GoString) (p : pattern) (x : GoString) :
    x ∈ fs.foldl (fun tp f => pattern.insert tp f) p ↔ x ∈ p ∨ x ∈ fs := by
  induction fs generalizing p with
  | nil => simp
  | cons f rest ih =>
    rw [List.foldl_cons, ih, mem_pattern_insert, List.mem_cons]
    tauto

theorem nodup_foldl_insert (fs : List GoString) (p : pattern) (h : p.Nodup) :
    (fs.foldl (fun tp f => pattern.insert tp f) p).Nodup := by
  induction fs generalizing p with
  | nil => simpa using h
  | cons f rest ih =>
    simp only [List.foldl_cons]
    apply ih
    unfold pattern.insert
    by_cases hf : f ∈ p
    · simpa [hf] using h
    · simp only [hf, if_false]
      exact List.Nodup.append h (by simp) (by simpa using hf)

theorem mem_parse_foldl (inputs : List GoString) (acc : pattern) (x : GoString) :
    x ∈ inputs.foldl (fun tablePattern v =>
        (fieldsFunc v (fun r => r == comma)).foldl (fun tp f => pattern.insert tp f)
          tablePattern) acc ↔
      x ∈ acc ∨ ∃ inp ∈ inputs, x ∈ specTokens inp := by
  induction inputs generalizing acc with
  | nil => simp
  | cons v rest ih =>
    rw [List.foldl_cons, ih, mem_foldl_insert, fieldsFunc_eq_specTokens]
    simp only [List.mem_cons, exists_eq_or_imp]
    tauto

theorem nodup_parse_foldl (inputs : List GoString) (acc : pattern) (h : acc.Nodup) :
    (inputs.foldl (fun tablePattern v =>
        (fieldsFunc v (fun r => r == comma)).foldl (fun tp f => pattern.insert tp f)
          tablePattern) acc).Nodup := by
  induction inputs generalizing acc with
  | nil => simpa using h
  | cons v rest ih =>
    simp only [List.foldl_cons]
    exact ih _ (nodup_foldl_insert _ _ h)

/-- The head of a split: either the whole list is one run free of separators, or the first
run ends at the first separator and the split continues behind it. -/
theorem splitOnP_head (p : Nat → Bool) (xs : List Nat) :
    ∃ hd, (∀ x ∈ hd, ¬ p x = true) ∧
      ((xs = hd ∧ xs.splitOnP p = [hd]) ∨
        ∃ c rest, p c = true ∧ xs = hd ++ c :: rest ∧
          xs.splitOnP p = hd :: rest.splitOnP p) := by
  induction xs with
  | nil => exact ⟨[], by simp, Or.inl ⟨rfl, by simp [List.splitOnP_nil]⟩⟩
  | cons x xs ih =>
    by_cases hx : p x = true
    · exact ⟨[], by simp, Or.inr ⟨x, xs, hx, rfl, by simp [List.splitOnP_cons, hx]⟩⟩
    · obtain ⟨hd, hfree, h⟩ := ih
      refine ⟨x :: hd, ?_, ?_⟩
      · intro y hy
        rcases List.mem_cons.mp hy with rfl | hy
        · exact hx
        · exact hfree y hy
      · rcases h with ⟨h1, h2⟩ | ⟨c, rest, hc, h1, h2⟩
        · left
          exact ⟨by rw [h1], by simp [List.splitOnP_cons, hx, h2]⟩
        · right
          exact ⟨c, rest, hc, by rw [h1]; rfl, by simp [List.splitOnP_cons, hx, h2]⟩

/-- Every piece of a split is a separator-free run of the list that is delimited on each
side by a separator or by an end of the list. -/
theorem splitOnP_piece (p : Nat → Bool) (n : Nat) :
    ∀ (xs : List Nat), xs.length ≤ n → ∀ l ∈ xs.splitOnP p,
      (∀ x ∈ l, ¬ p x = true) ∧
      ∃ pre post, xs = pre ++ l ++ post ∧
        (pre = [] ∨ ∃ pre1 c, pre = pre1 ++ [c] ∧ p c = true) ∧
        (post = [] ∨ ∃ c post1, post = c :: post1 ∧ p c = true) := by
  induction n with
  | zero =>
    intro xs hlen l hl
    have hxs : xs = [] := List.length_eq_zero.mp (by omega)
    subst hxs
    simp only [List.splitOnP_nil, List.mem_singleton] at hl
    subst hl
    exact ⟨by simp, [], [], by simp, Or.inl rfl, Or.inl rfl⟩
  | succ n ih =>
    intro xs hlen l hl
    obtain ⟨hd, hfree, h⟩ := splitOnP_head p xs
    rcases h with ⟨h1, h2⟩ | ⟨c, rest, hc, h1, h2⟩
    · rw [h2] at hl
      simp only [List.mem_singleton] at hl
      subst hl
      exact ⟨hfree, [], [], by simp [h1], Or.inl rfl, Or.inl rfl⟩
    · rw [h2] at hl
      rcases List.mem_cons.mp hl with rfl | hl
      · exact ⟨hfree, [], c :: rest, by simp [h1], Or.inl rfl, Or.inr ⟨c, rest, rfl, hc⟩⟩
      · have hrest : rest.length ≤ n := by
          have := congrArg List.length h1
          simp at this
          omega
        obtain ⟨hf, pre, post, hr, hpre, hpost⟩ := ih rest hrest l hl
        refine ⟨hf, hd ++ c :: pre, post, by simp [h1, hr], Or.inr ?_, hpost⟩
        rcases hpre with rfl | ⟨pre1, c1, rfl, hc1⟩
        · exact ⟨hd, c, rfl, hc⟩
        · exact ⟨hd ++ c :: pre1, c1, by simp, hc1⟩

theorem specTokens_piece (inp m : GoString) (h : m ∈ specTokens inp) :
    m ≠ [] ∧ (∀ x ∈ m, x ≠ comma) ∧
      ∃ pre post, inp = pre ++ m ++ post ∧
        (pre = [] ∨ pre.getLast? = some comma) ∧ (post = [] ∨ post.head? = some comma) := by
  simp only [specTokens, List.splitOn, List.mem_filter, decide_eq_true_eq] at h
  obtain ⟨hf, pre, post, hr, hpre, hpost⟩ :=
    splitOnP_piece (fun x => x == comma) inp.length inp (le_refl _) m h.1
  refine ⟨h.2, by simpa using hf, pre, post, hr, ?_, ?_⟩
  · rcases hpre with rfl | ⟨pre1, c, rfl, hc⟩
    · exact Or.inl rfl
    · right
      have : c = comma := by simpa using hc
      simp [this]
  · rcases hpost with rfl | ⟨c, post1, rfl, hc⟩
    · exact Or.inl rfl
    · right
      have : c = comma := by simpa using hc
      simp [this]

/-- A split keeps the pieces of what stands behind a separator. -/
theorem splitOnP_mem_after (p : Nat → Bool) (sep : Nat) (hsep : p sep = true)
    (rest l : List Nat) (hl : l ∈ rest.splitOnP p) :
    ∀ (xs : List Nat), ∃ hd tl, (xs ++ sep :: rest).splitOnP p = hd :: tl ∧ l ∈ tl := by
  intro xs
  induction xs with
  | nil => exact ⟨[], rest.splitOnP p, by simp [List.splitOnP_cons, hsep], hl⟩
  | cons x xs ih =>
    obtain ⟨hd, tl, h1, h2⟩ := ih
    by_cases hx : p x = true
    · exact ⟨[], hd :: tl, by simp [List.splitOnP_cons, hx, h1], by simp [h2]⟩
    · exact ⟨x :: hd, tl, by simp [List.splitOnP_cons, hx, h1], h2⟩

theorem specTokens_of_piece (inp m pre post : GoString) (hinp : inp = pre ++ m ++ post)
    (hne : m ≠ []) (hfree : ∀ x ∈ m, x ≠ comma)
    (hpre : pre = [] ∨ pre.getLast? = some comma)
    (hpost : post = [] ∨ post.head? = some comma) : m ∈ specTokens inp := by
  have hfree' : ∀ x ∈ m, ¬ (fun y => y == comma) x = true := by
    intro x hx
    simpa using hfree x hx
  -- the piece heads the split of what begins with it
  have hhead : m ∈ (m ++ post).splitOnP (fun y => y == comma) := by
    rcases hpost with rfl | hpost
    · rw [List.append_nil, List.splitOnP_eq_single (fun y => y == comma) m hfree']
      simp
    · cases post with
      | nil => simp at hpost
      | cons c post1 =>
        simp only [List.head?_cons, Option.some.injEq] at hpost
        subst hpost
        rw [List.splitOnP_first (fun y => y == comma) m hfree' comma (by simp) post1]
        simp
  simp only [specTokens, List.splitOn, List.mem_filter, decide_eq_true_eq]
  refine ⟨?_, hne⟩
  rcases hpre with rfl | hpre
  · rw [hinp]
    simpa using hhead
  · obtain ⟨pre1, hp1⟩ : ∃ pre1, pre = pre1 ++ [comma] := by
      cases hpl : pre.getLast? with
      | none => rw [hpl] at hpre; cases hpre
      | some c =>
        rw [hpl] at hpre
        have hc : c = comma := Option.some.inj hpre
        have hnn : pre ≠ [] := by
          intro h0
          rw [h0] at hpl
          simp at hpl
        refine ⟨pre.dropLast, ?_⟩
        have := List.dropLast_append_getLast? c (by simpa using hpl)
        rw [hc] at this
        exact this.symm
    obtain ⟨hd, tl, h1, h2⟩ :=
      splitOnP_mem_after (fun y => y == comma) comma (by simp) (m ++ post) m hhead pre1
    rw [hinp, hp1]
    have : pre1 ++ [comma] ++ m ++ post = pre1 ++ comma :: (m ++ post) := by simp
    rw [this, h1]
    simp [h2]

/-! ## Iteration budgets of the glob matcher -/

theorem decode_width_pos (b : Nat) (rest : GoString) :
    1 ≤ (decodeRuneInString (b :: rest)).2 := by
  by_cases hlt : b < 0x80
  · rw [decode_ascii b rest hlt]
  · rcases first_nonascii b (by omega) with hf | ⟨hf, h1, h2⟩ | ⟨hf, h1⟩ | ⟨hf, h1, h2⟩ |
      ⟨hf, h1⟩ | ⟨hf, h1⟩ | ⟨hf, h1, h2⟩ | ⟨hf, h1⟩
    all_goals
      simp only [decodeRuneInString, hf, RuneError, acceptRanges]
      norm_num
    all_goals
      rcases rest with _ | ⟨s1, _ | ⟨s2, _ | ⟨s3, t3⟩⟩⟩ <;> simp <;> (try split_ifs) <;>
        (try simp)

theorem getEsc_length (chunk : GoString) (r : Nat) (nchunk : GoString)
    (h : getEsc chunk = some (r, nchunk)) : nchunk.length < chunk.length := by
  cases chunk with
  | nil => simp [getEsc] at h
  | cons c t =>
    by_cases hc : c = 92
    · simp only [getEsc, hc, if_true] at h
      split_ifs at h
      obtain ⟨_, hn⟩ := Prod.mk.inj (Option.some.inj h)
      rw [← hn]
      simp only [List.length_drop, List.length_cons]
      omega
    · simp only [getEsc, hc, if_false] at h
      split_ifs at h
      obtain ⟨_, hn⟩ := Prod.mk.inj (Option.some.inj h)
      rw [← hn]
      have := decode_width_pos c t
      simp only [List.length_drop, List.length_cons]
      omega

theorem classLoop_terminates (fuel : Nat) :
    ∀ (chunk : GoString) (r : Nat) (mtch : Bool) (nrange : Nat), chunk.length < fuel →
      ∃ res, classLoop fuel chunk r mtch nrange = some res ∧
        ∀ m c, res = some (m, c) → c.length < chunk.length := by
  induction fuel with
  | zero => intro chunk _ _ _ h; omega
  | succ fuel ih =>
    intro chunk r mtch nrange hlen
    unfold classLoop
    split
    · rename_i t
      split_ifs
      · exact ⟨_, rfl, by intro m c h; cases h; simp⟩
      · exact ⟨_, rfl, by intro m c h; cases h⟩
    · split
      · exact ⟨_, rfl, by intro m c h; cases h⟩
      · rename_i lo chunk1 hesc
        have h1 := getEsc_length chunk lo chunk1 hesc
        split
        · rename_i t1
          split
          · exact ⟨_, rfl, by intro m c h; cases h⟩
          · rename_i hi chunk2 hesc2
            have h2 := getEsc_length t1 hi chunk2 hesc2
            simp only [List.length_cons] at h1
            obtain ⟨res, hres, hl⟩ := ih chunk2 r
              (if lo ≤ r ∧ r ≤ hi then true else mtch) (nrange + 1) (by omega)
            exact ⟨res, hres, by intro m c h; have := hl m c h; omega⟩
        · obtain ⟨res, hres, hl⟩ := ih chunk1 r
            (if lo ≤ r ∧ r ≤ lo then true else mtch) (nrange + 1) (by omega)
          exact ⟨res, hres, by intro m c h; have := hl m c h; omega⟩

theorem matchChunkLoop_terminates (fuel : Nat) :
    ∀ (chunk s : GoString) (failed : Bool), chunk.length < fuel →
      ∃ res, matchChunkLoop fuel chunk s failed = some res := by
  induction fuel with
  | zero => intro chunk _ _ h; omega
  | succ fuel ih =>
    intro chunk s failed hlen
    cases chunk with
    | nil => exact ⟨_, by simp only [matchChunkLoop]; rfl⟩
    | cons c chunk1 =>
      simp only [List.length_cons] at hlen
      simp only [matchChunkLoop]
      generalize (if (!failed) = true ∧ s.length = 0 then true else failed) = failed1
      by_cases h91 : c = 91
      · simp only [h91, if_true]
        generalize hc2 : (if decide (chunk1.head? = some 94) = true then chunk1.drop 1
          else chunk1) = chunk2
        have hlen2 : chunk2.length ≤ chunk1.length := by
          rw [← hc2]
          split_ifs
          · simp
          · exact le_refl _
        obtain ⟨res, hres, hl⟩ := classLoop_terminates fuel chunk2
          (if (!failed1) = true then decodeRuneInString s else (0, 0)).1 false 0 (by omega)
        rw [hres]
        rcases res with _ | ⟨m, c3⟩
        · exact ⟨_, rfl⟩
        · have := hl m c3 rfl
          exact ih c3 _ _ (by omega)
      · simp only [h91, if_false]
        by_cases h63 : c = 63
        · simp only [h63, if_true]
          split_ifs <;> exact ih _ _ _ (by omega)
        · simp only [h63, if_false]
          by_cases h92 : c = 92
          · simp only [h92, if_true]
            cases chunk1 with
            | nil => exact ⟨_, rfl⟩
            | cons c0 chunk2 =>
              simp only [List.length_cons] at hlen
              simp only []
              split_ifs <;> exact ih _ _ _ (by omega)
          · simp only [h92, if_false]
            split_ifs <;> exact ih _ _ _ (by omega)

theorem matchChunk_eq (chunk s : GoString) :
    matchChunkLoop (chunk.length + 1) chunk s false = some (matchChunk chunk s) := by
  obtain ⟨res, hres⟩ := matchChunkLoop_terminates (chunk.length + 1) chunk s false (by omega)
  simp [matchChunk, hres]

theorem scanIndex_le (n : Nat) :
    ∀ (p : GoString) (inrange : Bool), p.length ≤ n → scanIndex p inrange ≤ p.length := by
  induction n using Nat.strong_induction_on with
  | _ n ih =>
    intro p inrange hlen
    cases p with
    | nil => simp [scanIndex]
    | cons c t =>
      simp only [List.length_cons] at hlen
      have iht : ∀ b, scanIndex t b ≤ t.length := fun b => ih t.length (by omega) t b (le_refl _)
      unfold scanIndex
      simp only [List.length_cons]
      split_ifs
      · cases t with
        | nil => simp
        | cons c1 t1 =>
          simp only [List.length_cons] at hlen ⊢
          have := ih t1.length (by omega) t1 inrange (le_refl _)
          omega
      · have := iht true; omega
      · have := iht false; omega
      · omega
      · have := iht inrange; omega
      · have := iht inrange; omega

theorem scanIndex_pos (c : Nat) (t : GoString) (hc : c ≠ 42) :
    1 ≤ scanIndex (c :: t) false := by
  unfold scanIndex
  simp only [hc, if_false]
  split_ifs
  · cases t with
    | nil => simp
    | cons c1 t1 => simp only []; omega
  all_goals omega

theorem scanStars_length (p : GoString) :
    (scanStars p).2.length ≤ p.length ∧
      ((scanStars p).1 = true → (scanStars p).2.length < p.length) ∧
      ((scanStars p).2 = [] ∨ ∃ c t, (scanStars p).2 = c :: t ∧ c ≠ 42) := by
  induction p with
  | nil => simp [scanStars]
  | cons c t ih =>
    by_cases hc : c = 42
    · simp only [scanStars, hc, if_true, List.length_cons]
      refine ⟨by omega, fun _ => by omega, ih.2.2⟩
    · simp only [scanStars, hc, if_false, List.length_cons]
      exact ⟨le_refl _, by simp, Or.inr ⟨c, t, rfl, hc⟩⟩

theorem scanChunk_length (pat : GoString) (h : pat ≠ []) :
    (scanChunk pat).2.2.length < pat.length := by
  obtain ⟨h1, h2, h3⟩ := scanStars_length pat
  simp only [scanChunk, List.length_drop]
  rcases h3 with h3 | ⟨c, t, h3, hc⟩
  · cases hs : (scanStars pat).1 with
    | true => have := h2 hs; omega
    | false =>
      have hp : 0 < pat.length := List.length_pos.mpr h
      cases pat with
      | nil => exact absurd rfl h
      | cons c t =>
        by_cases hc : c = 42
        · simp [scanStars, hc] at hs
        · simp [scanStars, hc] at h3
  · have hpos := scanIndex_pos c t hc
    rw [h3] at h1 ⊢
    simp only [List.length_cons] at h1 ⊢
    omega

theorem matchLoop_terminates (fuel : Nat) :
    ∀ (pat name : GoString), pat.length < fuel →
      ∃ res, matchLoop fuel pat name = some res := by
  induction fuel with
  | zero => intro pat _ h; omega
  | succ fuel ih =>
    intro pat name hlen
    unfold matchLoop
    by_cases hp : pat.length > 0
    · have hne : pat ≠ [] := List.length_pos.mp hp
      have hshrink := scanChunk_length pat hne
      simp only [hp, if_true]
      rcases hsc : scanChunk pat with ⟨star, chunk, pat1⟩
      rw [hsc] at hshrink
      simp only at hshrink ⊢
      have hrec : ∀ t, ∃ res, matchLoop fuel pat1 t = some res :=
        fun t => ih pat1 t (by omega)
      repeat' split
      all_goals first
        | exact ⟨_, rfl⟩
        | exact hrec _
    · simp only [hp, if_false]
      exact ⟨_, rfl⟩

/-- The iteration budgets in `matchChunk` and `filepath.Match` are never used up: the loops
return a result of their own. -/
theorem filepathMatch_eq (pat name : GoString) :
    matchLoop (pat.length + 1) pat name = some (filepathMatch pat name) := by
  obtain ⟨res, hres⟩ := matchLoop_terminates (pat.length + 1) pat name (by omega)
  simp [filepathMatch, hres]


/-! ## Patterns without character classes and escapes -/

theorem matchChunkLoop_failed (chunk : GoString) :
    ∀ (fuel : Nat) (s : GoString), chunk.length < fuel →
      (∀ b ∈ chunk, isClassOrEscape b = false) →
      matchChunkLoop fuel chunk s true = some .noMatch := by
  induction chunk with
  | nil =>
    intro fuel s hlen _
    cases fuel with
    | zero => simp at hlen
    | succ fuel => simp [matchChunkLoop]
  | cons c rest ih =>
    intro fuel s hlen hs
    cases fuel with
    | zero => simp at hlen
    | succ fuel =>
      have hc := hs c (by simp)
      simp only [isClassOrEscape, Bool.or_eq_false_iff, beq_eq_false_iff_ne, ne_eq] at hc
      obtain ⟨h91, h92⟩ := hc
      simp only [List.length_cons] at hlen
      have hrec := fun s => ih fuel s (by omega) (fun b hb => hs b (by simp [hb]))
      by_cases h63 : c = 63
      · simp [matchChunkLoop, h63, hrec]
      · simp [matchChunkLoop, h63, h91, h92, hrec]

theorem matchChunkLoop_simple (chunk : GoString) :
    ∀ (fuel : Nat) (s : GoString), chunk.length < fuel →
      (∀ b ∈ chunk, isClassOrEscape b = false) →
      matchChunkLoop fuel chunk s false =
        some (match simpleMatch chunk s with
          | some t => .matched t
          | none => .noMatch) := by
  induction chunk with
  | nil =>
    intro fuel s hlen _
    cases fuel with
    | zero => simp at hlen
    | succ fuel => simp [matchChunkLoop, simpleMatch]
  | cons c rest ih =>
    intro fuel s hlen hs
    cases fuel with
    | zero => simp at hlen
    | succ fuel =>
      have hc := hs c (by simp)
      simp only [isClassOrEscape, Bool.or_eq_false_iff, beq_eq_false_iff_ne, ne_eq] at hc
      obtain ⟨h91, h92⟩ := hc
      simp only [List.length_cons] at hlen
      have hrest : ∀ b ∈ rest, isClassOrEscape b = false := fun b hb => hs b (by simp [hb])
      have hfail := fun s => matchChunkLoop_failed rest fuel s (by omega) hrest
      have hrec := fun s => ih fuel s (by omega) hrest
      cases s with
      | nil =>
        by_cases h63 : c = 63
        · simp [matchChunkLoop, simpleMatch, h63, hfail]
        · simp [matchChunkLoop, simpleMatch, h63, h91, h92, hfail]
      | cons b s1 =>
        by_cases h63 : c = 63
        · by_cases hb : b = Separator
          · simp [matchChunkLoop, simpleMatch, h63, hb, hfail]
          · simp [matchChunkLoop, simpleMatch, h63, hb, hrec]
        · by_cases hcb : c = b
          · subst hcb
            simp [matchChunkLoop, simpleMatch, h63, h91, h92, hrec]
          · simp [matchChunkLoop, simpleMatch, h63, h91, h92, hcb, hfail]

theorem matchChunk_simple (chunk s : GoString)
    (hs : ∀ b ∈ chunk, isClassOrEscape b = false) :
    matchChunk chunk s =
      match simpleMatch chunk s with
      | some t => .matched t
      | none => .noMatch := by
  unfold matchChunk
  rw [matchChunkLoop_simple chunk _ s (by omega) hs]
  rfl


theorem simpleMatch_self (chunk rest : GoString) :
    simpleMatch chunk (chunk ++ rest) = some rest := by
  induction chunk with
  | nil => simp [simpleMatch]
  | cons c chunk1 ih =>
    by_cases h63 : c = 63
    · subst h63
      have hd := decode_ascii 63 (chunk1 ++ rest) (by decide)
      simp [simpleMatch, Separator, hd, ih]
    · simp [simpleMatch, h63, ih]

/-- A match of a chunk that starts inside a stretch `mid` without separators, in front of
the chunk's own text, ends inside that text or that stretch: what is left over in front of
`rest` holds no separator. -/
theorem simpleMatch_leftover (todo : GoString) :
    ∀ (mid rest t : GoString), (∀ b ∈ mid, b ≠ Separator) →
      simpleMatch todo (mid ++ todo ++ rest) = some t →
      ∃ mid1, t = mid1 ++ rest ∧ ∀ b ∈ mid1, b ≠ Separator := by
  induction todo with
  | nil =>
    intro mid rest t hmid h
    simp only [simpleMatch, List.append_nil, Option.some.injEq] at h
    exact ⟨mid, h.symm, hmid⟩
  | cons c todo1 ih =>
    intro mid rest t hmid h
    cases mid with
    | nil =>
      have hself := simpleMatch_self (c :: todo1) rest
      simp only [List.nil_append] at h
      rw [hself] at h
      exact ⟨[], by simpa using h.symm, by simp⟩
    | cons b mid1 =>
      have hb : b ≠ Separator := hmid b (by simp)
      simp only [List.cons_append, simpleMatch] at h
      by_cases h63 : c = 63
      · subst h63
        simp only [if_true, hb, if_false] at h
        -- the rune read by `?` lies inside `mid`
        have hw : (decodeRuneInString (b :: (mid1 ++ 63 :: todo1 ++ rest))).2 ≤
            (b :: mid1).length := by
          by_cases hlt : b < 0x80
          · rw [decode_ascii b _ hlt]
            simp
          · have hdn := (decode_nonascii b (mid1 ++ 63 :: todo1 ++ rest) (by omega)).2
            by_contra hgt
            have hgt' : mid1.length <
                (decodeRuneInString (b :: (mid1 ++ 63 :: todo1 ++ rest))).2 - 1 := by
              simp only [List.length_cons] at hgt
              omega
            have hmem : (63 : Nat) ∈ (mid1 ++ 63 :: todo1 ++ rest).take
                ((decodeRuneInString (b :: (mid1 ++ 63 :: todo1 ++ rest))).2 - 1) := by
              rw [List.append_assoc, List.take_append_eq_append_take]
              apply List.mem_append_right
              have hpos : 0 < (decodeRuneInString (b :: (mid1 ++ (63 :: todo1 ++ rest)))).2
                  - 1 - mid1.length := by
                simp only [List.append_assoc] at hgt'
                omega
              obtain ⟨k, hk⟩ := Nat.exists_eq_succ_of_ne_zero (Nat.pos_iff_ne_zero.mp hpos)
              rw [hk]
              simp
            have := hdn 63 hmem
            omega
        generalize (decodeRuneInString (b :: (mid1 ++ 63 :: todo1 ++ rest))).2 = w at h hw
        have hsplit : b :: (mid1 ++ 63 :: todo1 ++ rest) =
            (b :: mid1) ++ (63 :: (todo1 ++ rest)) := by simp
        rw [hsplit, List.drop_append_of_le_length hw] at h
        exact ih ((b :: mid1).drop w ++ [63]) rest t
          (by
            intro x hx
            rcases List.mem_append.mp hx with hx | hx
            · exact hmid x (List.mem_of_mem_drop hx)
            · simp only [List.mem_singleton] at hx
              subst hx
              decide)
          (by simpa using h)
      · simp only [h63, if_false] at h
        by_cases hcb : c = b
        · subst hcb
          simp only [if_true] at h
          exact ih (mid1 ++ [c]) rest t
            (by
              intro x hx
              rcases List.mem_append.mp hx with hx | hx
              · exact hmid x (by simp [hx])
              · simp only [List.mem_singleton] at hx
                subst hx
                exact hb)
            (by simpa using h)
        · simp [hcb] at h


theorem scanStars_spec (p : GoString) :
    ∃ k rest, scanStars p = (decide (0 < k), rest) ∧ p = List.replicate k 42 ++ rest ∧
      (rest = [] ∨ ∃ c t, rest = c :: t ∧ c ≠ 42) := by
  induction p with
  | nil => exact ⟨0, [], by simp [scanStars], by simp, Or.inl rfl⟩
  | cons c t ih =>
    by_cases hc : c = 42
    · obtain ⟨k, rest, h1, h2, h3⟩ := ih
      refine ⟨k + 1, rest, ?_, ?_, h3⟩
      · simp [scanStars, hc, h1]
      · simp [hc, h2, List.replicate_succ]
    · exact ⟨0, c :: t, by simp [scanStars, hc], by simp, Or.inr ⟨c, t, rfl, hc⟩⟩

theorem scanIndex_simple (p : GoString) (hs : ∀ b ∈ p, isClassOrEscape b = false) :
    ∃ chunk pat1, p = chunk ++ pat1 ∧ scanIndex p false = chunk.length ∧
      (∀ b ∈ chunk, b ≠ 42) ∧ (pat1 = [] ∨ ∃ t, pat1 = 42 :: t) := by
  induction p with
  | nil => exact ⟨[], [], by simp, by simp [scanIndex], by simp, Or.inl rfl⟩
  | cons c t ih =>
    have hc := hs c (by simp)
    simp only [isClassOrEscape, Bool.or_eq_false_iff, beq_eq_false_iff_ne, ne_eq] at hc
    obtain ⟨h91, h92⟩ := hc
    by_cases h42 : c = 42
    · refine ⟨[], c :: t, by simp, ?_, by simp, Or.inr ⟨t, by rw [h42]⟩⟩
      unfold scanIndex
      simp [h42]
    · obtain ⟨chunk, pat1, h1, h2, h3, h4⟩ := ih (fun b hb => hs b (by simp [hb]))
      refine ⟨c :: chunk, pat1, by simp [h1], ?_, ?_, h4⟩
      · unfold scanIndex
        simp only [h92, h91, h42, if_false, List.length_cons]
        split_ifs <;> omega
      · intro b hb
        rcases List.mem_cons.mp hb with rfl | hb
        · exact h42
        · exact h3 b hb

/-- The shape of `scanChunk` on a pattern without `[` and `\`: some stars, a chunk without
stars, and a rest that is empty or begins with a star. -/
theorem scanChunk_simple (pat : GoString) (hs : ∀ b ∈ pat, isClassOrEscape b = false) :
    ∃ k chunk pat1, scanChunk pat = (decide (0 < k), chunk, pat1) ∧
      pat = List.replicate k 42 ++ chunk ++ pat1 ∧
      (∀ b ∈ chunk, b ≠ 42) ∧ (pat1 = [] ∨ ∃ t, pat1 = 42 :: t) ∧
      (chunk = [] → pat1 = []) ∧ (k = 0 → pat ≠ [] → chunk ≠ []) := by
  obtain ⟨k, rest, h1, h2, h3⟩ := scanStars_spec pat
  have hrest : ∀ b ∈ rest, isClassOrEscape b = false := by
    intro b hb
    exact hs b (by rw [h2]; simp [hb])
  obtain ⟨chunk, pat1, h4, h5, h6, h7⟩ := scanIndex_simple rest hrest
  have hchunk : chunk = [] → pat1 = [] := by
    intro hc
    rcases h3 with h3 | ⟨c, t, h3, hc42⟩
    · rw [h3, hc] at h4
      simpa using h4.symm
    · rcases h7 with h7 | ⟨t1, h7⟩
      · exact h7
      · rw [h3, hc, h7] at h4
        simp only [List.nil_append, List.cons.injEq] at h4
        exact absurd h4.1 hc42
  refine ⟨k, chunk, pat1, ?_, ?_, h6, h7, hchunk, ?_⟩
  · simp only [scanChunk, h1, h5]
    rw [h4]
    simp
  · rw [h2, h4]
    simp
  · intro hk hne hc
    have hp1 := hchunk hc
    rw [hc, hp1] at h4
    rw [hk, h4] at h2
    exact hne (by simpa using h2)


/-- The star loop finds the chunk: in front of the chunk's own text stands a non-empty
stretch without separators, so a match is found at the latest where that text begins, and
what it leaves in front of the rest of the pattern holds no separator. -/
theorem starLoop_finds (chunk pat1 : GoString) (hs : ∀ b ∈ chunk, isClassOrEscape b = false) :
    ∀ (pre : GoString), pre ≠ [] → (∀ b ∈ pre, b ≠ Separator) →
      ∃ t mid, starLoop chunk (decide (pat1.length = 0)) (pre ++ chunk ++ pat1) = .found t ∧
        t = mid ++ pat1 ∧ (∀ b ∈ mid, b ≠ Separator) ∧ (pat1 = [] → t = []) := by
  intro pre
  induction pre with
  | nil => intro h; exact absurd rfl h
  | cons b pre1 ih =>
    intro _ hpre
    have hb : b ≠ Separator := hpre b (by simp)
    have hpre1 : ∀ x ∈ pre1, x ≠ Separator := fun x hx => hpre x (by simp [hx])
    have hrec : pre1 ≠ [] → ∃ t mid,
        starLoop chunk (decide (pat1.length = 0)) (pre1 ++ chunk ++ pat1) = .found t ∧
          t = mid ++ pat1 ∧ (∀ b ∈ mid, b ≠ Separator) ∧ (pat1 = [] → t = []) :=
      fun hne => ih hne hpre1
    have hself : pre1 = [] → simpleMatch chunk (pre1 ++ chunk ++ pat1) = some pat1 := by
      intro h0
      rw [h0]
      exact simpleMatch_self chunk pat1
    simp only [List.cons_append, starLoop, hb, if_false, matchChunk_simple chunk _ hs]
    cases hm : simpleMatch chunk (pre1 ++ chunk ++ pat1) with
    | none =>
      have hne : pre1 ≠ [] := by
        intro h0
        rw [hself h0] at hm
        cases hm
      simp only []
      exact hrec hne
    | some t =>
      obtain ⟨mid, hmid, hfree⟩ := simpleMatch_leftover chunk pre1 pat1 t hpre1 hm
      simp only []
      by_cases hlast : decide (pat1.length = 0) = true ∧ t.length > 0
      · have hne : pre1 ≠ [] := by
          intro h0
          rw [hself h0] at hm
          have htp : pat1 = t := Option.some.inj hm
          have hp0 : pat1.length = 0 := by simpa using hlast.1
          rw [← htp] at hlast
          omega
        rw [if_pos hlast]
        exact hrec hne
      · rw [if_neg hlast]
        refine ⟨t, mid, rfl, hmid, hfree, ?_⟩
        intro hp
        have : ¬ t.length > 0 := by
          intro ht
          exact hlast ⟨by simp [hp], ht⟩
        exact List.length_eq_zero.mp (by omega)


/-- The loop of `filepath.Match` on a pattern without `[` and `\`, run on a name that is the
pattern's own text behind a stretch without separators: the match succeeds. -/
theorem matchLoop_self (fuel : Nat) :
    ∀ (pat lag : GoString), pat.length < fuel →
      (∀ b ∈ pat, isClassOrEscape b = false) → (∀ b ∈ lag, b ≠ Separator) →
      (lag ≠ [] → ∃ t, pat = 42 :: t) →
      matchLoop fuel pat (lag ++ pat) = some (true, none) := by
  induction fuel with
  | zero => intro pat _ h; omega
  | succ fuel ih =>
    intro pat lag hlen hs hlag hstar
    unfold matchLoop
    by_cases hp : pat.length > 0
    swap
    · have hpat : pat = [] := List.length_eq_zero.mp (by omega)
      have hl : lag = [] := by
        by_contra hne
        obtain ⟨t, ht⟩ := hstar hne
        rw [hpat] at ht
        cases ht
      simp [hp, hpat, hl]
    · have hne : pat ≠ [] := List.length_pos.mp hp
      obtain ⟨k, chunk, pat1, hsc, hpat, hchunk, hpat1, hempty, hk0⟩ := scanChunk_simple pat hs
      have hschunk : ∀ b ∈ chunk, isClassOrEscape b = false :=
        fun b hb => hs b (by rw [hpat]; simp [hb])
      have hspat1 : ∀ b ∈ pat1, isClassOrEscape b = false :=
        fun b hb => hs b (by rw [hpat]; simp [hb])
      have hshrink : pat1.length < pat.length := by
        have hl := congrArg List.length hpat
        simp only [List.length_append, List.length_replicate] at hl
        by_cases hk : k = 0
        · have := List.length_pos.mpr (hk0 hk hne)
          omega
        · omega
      -- the next iteration, from any rest that the chunk may leave
      have hnext : ∀ t mid, t = mid ++ pat1 → (∀ b ∈ mid, b ≠ Separator) →
          (pat1 = [] → t = []) → matchLoop fuel pat1 t = some (true, none) := by
        intro t mid ht hmid hlast
        rcases hpat1 with h0 | ⟨t1, h1⟩
        · have := hlast h0
          rw [this, h0]
          exact ih [] [] (by simp; omega) (by simp) (by simp) (by simp)
        · rw [ht]
          exact ih pat1 mid (by omega) hspat1 hmid (fun _ => ⟨t1, h1⟩)
      have hname : lag ++ pat = (lag ++ List.replicate k 42) ++ chunk ++ pat1 := by
        rw [hpat]
        simp
      have hpre : ∀ b ∈ lag ++ List.replicate k 42, b ≠ Separator := by
        intro b hb
        rcases List.mem_append.mp hb with hb | hb
        · exact hlag b hb
        · rw [List.eq_of_mem_replicate hb]
          decide
      have hk_of_lag : lag ≠ [] → 0 < k := by
        intro hl
        obtain ⟨t, ht⟩ := hstar hl
        by_contra hk
        have hk' : k = 0 := by omega
        have hc := hk0 hk' hne
        rw [hk'] at hpat
        cases chunk with
        | nil => exact hc rfl
        | cons c chunk1 =>
          rw [ht] at hpat
          simp only [List.replicate_zero, List.nil_append, List.cons_append,
            List.cons.injEq] at hpat
          exact hchunk c (by simp) hpat.1.symm
      have hpre_nil : ¬ 0 < k → lag ++ List.replicate k 42 = [] := by
        intro hk
        have hl : lag = [] := by
          by_contra hl
          exact hk (hk_of_lag hl)
        have hk' : k = 0 := by omega
        simp [hl, hk']
      have hpre_ne : 0 < k → lag ++ List.replicate k 42 ≠ [] := by
        intro hk h0
        have := congrArg List.length h0
        simp at this
        omega
      -- what the star loop contributes
      have hsearch : 0 < k →
          (match starLoop chunk (decide (pat1.length = 0)) (lag ++ pat) with
            | .found t1 => matchLoop fuel pat1 t1
            | .bad => some (false, some GlobError.errBadPattern)
            | .notFound => some (false, none)) = some (true, none) := by
        intro hk
        obtain ⟨t, mid, hfound, ht, hmid, hlast⟩ :=
          starLoop_finds chunk pat1 hschunk _ (hpre_ne hk) hpre
        rw [hname, hfound]
        exact hnext t mid ht hmid hlast
      simp only [hp, if_true, hsc]
      by_cases htrail : decide (0 < k) = true ∧ chunk = []
      · rw [if_pos htrail]
        have hp1 := hempty htrail.2
        have hcont : (lag ++ pat).contains Separator = false := by
          rw [hname, htrail.2, hp1]
          simp only [List.append_nil]
          rw [List.contains_eq_any_beq, List.any_eq_false]
          intro b hb
          have := hpre b hb
          simpa using fun h : Separator = b => this h.symm
        rw [hcont]
        rfl
      · rw [if_neg htrail, matchChunk_simple chunk _ hschunk]
        cases hm : simpleMatch chunk (lag ++ pat) with
        | none =>
          simp only []
          by_cases hk : 0 < k
          · simp only [hk, decide_True, if_true]
            exact hsearch hk
          · exfalso
            rw [hname, hpre_nil hk, List.nil_append, simpleMatch_self] at hm
            cases hm
        | some t =>
          simp only []
          rw [hname] at hm
          obtain ⟨mid, ht, hmid⟩ := simpleMatch_leftover chunk _ pat1 t hpre hm
          by_cases hcont : t.length = 0 ∨ pat1.length > 0
          · rw [if_pos hcont]
            refine hnext t mid ht hmid ?_
            intro h0
            rcases hcont with h | h
            · exact List.length_eq_zero.mp h
            · rw [h0] at h
              simp at h
          · rw [if_neg hcont]
            by_cases hk : 0 < k
            · simp only [hk, decide_True, if_true]
              exact hsearch hk
            · exfalso
              rw [hpre_nil hk, List.nil_append, simpleMatch_self] at hm
              have htp : pat1 = t := Option.some.inj hm
              have : pat1.length = 0 := by omega
              rw [← htp] at hcont
              omega

/-- A pattern without `[` and `\` matches its own text. -/
theorem filepathMatch_self (v : GoString) (hs : ∀ b ∈ v, isClassOrEscape b = false) :
    filepathMatch v v = (true, none) := by
  have := matchLoop_self (v.length + 1) v [] (by omega) hs (by simp) (by simp)
  simp only [List.nil_append] at this
  simp [filepathMatch, this]

/-! ## Lemmas on `pattern.Match` -/

theorem pattern_Match_fst_cons (v : GoString) (rest : pattern) (s : GoString) :
    (pattern.Match (v :: rest) s).1 =
      (decide (filepathMatch v s = (true, none)) || (pattern.Match rest s).1) := by
  rcases h : filepathMatch v s with ⟨b, e⟩
  cases e with
  | some err => simp [pattern.Match, h]
  | none => cases b <;> simp [pattern.Match, h]

theorem pattern_Match_fst_iff (p : pattern) (s : GoString) :
    (pattern.Match p s).1 = true ↔ ∃ v ∈ p, filepathMatch v s = (true, none) := by
  induction p with
  | nil => simp [pattern.Match]
  | cons v rest ih => simp [pattern_Match_fst_cons, ih]

theorem pattern_Match_fst_perm (p q : pattern) (s : GoString) (h : p.Perm q) :
    (pattern.Match p s).1 = (pattern.Match q s).1 := by
  have hp := pattern_Match_fst_iff p s
  have hq := pattern_Match_fst_iff q s
  have : (pattern.Match p s).1 = true ↔ (pattern.Match q s).1 = true := by
    rw [hp, hq]
    constructor
    · rintro ⟨v, hv, hm⟩; exact ⟨v, h.mem_iff.mp hv, hm⟩
    · rintro ⟨v, hv, hm⟩; exact ⟨v, h.mem_iff.mpr hv, hm⟩
  cases h1 : (pattern.Match p s).1 <;> cases h2 : (pattern.Match q s).1 <;> simp_all

theorem pattern_Match_calls (p : pattern) (s : GoString) :
    ∀ c ∈ (pattern.Match p s).2,
      (∃ v ∈ p, c = Call.filepathMatch v s) ∨ c = Call.consoleError badPatternText := by
  induction p with
  | nil => simp [pattern.Match]
  | cons v rest ih =>
    intro c hc
    rcases h : filepathMatch v s with ⟨b, e⟩
    cases e with
    | some err =>
      simp only [pattern.Match, h, List.mem_cons] at hc
      rcases hc with hc | hc | hc
      · exact Or.inl ⟨v, by simp, hc⟩
      · exact Or.inr hc
      · rcases ih c hc with ⟨w, hw, hcw⟩ | hcw
        · exact Or.inl ⟨w, by simp [hw], hcw⟩
        · exact Or.inr hcw
    | none =>
      cases b with
      | true =>
        simp only [pattern.Match, h, List.mem_singleton] at hc
        exact Or.inl ⟨v, by simp, hc⟩
      | false =>
        simp only [pattern.Match, h, List.mem_cons] at hc
        rcases hc with hc | hc
        · exact Or.inl ⟨v, by simp, hc⟩
        · rcases ih c hc with ⟨w, hw, hcw⟩ | hcw
          · exact Or.inl ⟨w, by simp [hw], hcw⟩
          · exact Or.inr hcw

theorem pattern_Match_false_tests_all (p : pattern) (s : GoString)
    (h : (pattern.Match p s).1 = false) :
    ∀ v ∈ p, Call.filepathMatch v s ∈ (pattern.Match p s).2 := by
  induction p with
  | nil => simp
  | cons w rest ih =>
    rcases hw : filepathMatch w s with ⟨b, e⟩
    cases e with
    | some err =>
      simp only [pattern.Match, hw] at h ⊢
      intro v hv
      rcases List.mem_cons.mp hv with rfl | hv
      · simp
      · simp [ih h v hv]
    | none =>
      cases b with
      | true => simp [pattern.Match, hw] at h
      | false =>
        simp only [pattern.Match, hw] at h ⊢
        intro v hv
        rcases List.mem_cons.mp hv with rfl | hv
        · simp
        · simp [ih h v hv]

/-! ## Lemmas on the selection map -/

theorem mem_mapKeys_mapSet {Table : Type} (m : List (GoString × Table)) (k : GoString)
    (v : Table) (x : GoString) :
    x ∈ mapKeys (mapSet m k v) ↔ x = k ∨ x ∈ mapKeys m := by
  induction m with
  | nil => simp [mapSet, mapKeys]
  | cons kv rest ih =>
    obtain ⟨k0, v0⟩ := kv
    by_cases hk : k0 = k
    · subst hk
      simp [mapSet, mapKeys]
    · simp only [mapKeys] at ih
      simp only [mapSet, hk, if_false, mapKeys, List.map_cons, List.mem_cons, ih]
      tauto

theorem mapKeys_mapSet_nodup {Table : Type} (m : List (GoString × Table)) (k : GoString)
    (v : Table) (h : (mapKeys m).Nodup) : (mapKeys (mapSet m k v)).Nodup := by
  induction m with
  | nil => simp [mapSet, mapKeys]
  | cons kv rest ih =>
    obtain ⟨k0, v0⟩ := kv
    by_cases hk : k0 = k
    · subst hk
      simpa [mapSet, mapKeys] using h
    · have h' : k0 ∉ mapKeys rest ∧ (mapKeys rest).Nodup := by
        simpa [mapKeys] using h
      have hmem := mem_mapKeys_mapSet rest k v k0
      have hn := ih h'.2
      simp only [mapSet, hk, if_false]
      show (k0 :: mapKeys (mapSet rest k v)).Nodup
      refine List.nodup_cons.mpr ⟨?_, hn⟩
      rw [hmem]
      rintro (h1 | h1)
      · exact hk h1
      · exact h'.1 h1

theorem mapSet_ne_nil {Table : Type} (m : List (GoString × Table)) (k : GoString) (v : Table) :
    mapSet m k v ≠ [] := by
  cases m with
  | nil => simp [mapSet]
  | cons kv rest =>
    obtain ⟨k0, v0⟩ := kv
    by_cases hk : k0 = k <;> simp [mapSet, hk]

/-! ## Lemmas on the loops -/

section LoopLemmas

variable {ColumnData Table Config : Type}

theorem ddlLoop_all_ok (env : Env ColumnData Table Config) (cache : Bool) (database : GoString)
    (files : List GoString) (h : List Call)
    (hok : ∀ i f, files[i]? = some f →
      env.startFromDDL
        (h ++ (files.take i).map (fun x => Call.startFromDDL x cache database))
        f cache database = none) :
    ddlLoop env cache database files h =
      (none, h ++ files.map (fun x => Call.startFromDDL x cache database)) := by
  induction files generalizing h with
  | nil => simp [ddlLoop]
  | cons file rest ih =>
    have h0 := hok 0 file (by simp)
    simp only [List.take_zero, List.map_nil, List.append_nil] at h0
    simp only [ddlLoop, h0]
    rw [ih]
    · simp
    · intro i f hf
      have := hok (i + 1) f (by simpa using hf)
      simpa using this

theorem ddlLoop_first_failure (env : Env ColumnData Table Config) (cache : Bool)
    (database : GoString) (files : List GoString) (h : List Call) (k : Nat) (fk : GoString)
    (e : ForeignError)
    (hok : ∀ i f, i < k → files[i]? = some f →
      env.startFromDDL
        (h ++ (files.take i).map (fun x => Call.startFromDDL x cache database))
        f cache database = none)
    (hk : files[k]? = some fk)
    (hfail : env.startFromDDL
        (h ++ (files.take k).map (fun x => Call.startFromDDL x cache database))
        fk cache database = some e) :
    ddlLoop env cache database files h =
      (some (Error.foreign e),
        h ++ (files.take (k + 1)).map (fun x => Call.startFromDDL x cache database)) := by
  induction files generalizing h k with
  | nil => simp at hk
  | cons file rest ih =>
    cases k with
    | zero =>
      simp only [List.getElem?_cons_zero, Option.some.injEq] at hk
      subst hk
      simp only [List.take_zero, List.map_nil, List.append_nil] at hfail
      simp [ddlLoop, hfail]
    | succ k =>
      have h0 := hok 0 file (by omega) (by simp)
      simp only [List.take_zero, List.map_nil, List.append_nil] at h0
      simp only [ddlLoop, h0]
      rw [ih (h ++ [Call.startFromDDL file cache database]) k]
      · simp
      · intro i f hi hf
        have := hok (i + 1) f (by omega) (by simpa using hf)
        simpa using this
      · simpa using hk
      · simpa using hfail

theorem mysqlScan_history (env : Env ColumnData Table Config) (dbName : GoString)
    (tablePat : pattern) (tables : List GoString) (m : List (GoString × Table))
    (h : List Call) :
    ∃ extra, (mysqlScan env dbName tablePat tables m h).2 = h ++ extra ∧
      ∀ c ∈ extra, c.isScan = true := by
  induction tables generalizing m h with
  | nil => exact ⟨[], by simp [mysqlScan]⟩
  | cons item rest ih =>
    have hcalls : ∀ c ∈ (pattern.Match tablePat item).2, c.isScan = true := by
      intro c hc
      rcases pattern_Match_calls tablePat item c hc with ⟨v, _, rfl⟩ | rfl <;> rfl
    simp only [mysqlScan]
    split
    · obtain ⟨extra, he, hs⟩ := ih m (h ++ (pattern.Match tablePat item).2)
      refine ⟨(pattern.Match tablePat item).2 ++ extra, by simp [he], ?_⟩
      intro c hc
      rcases List.mem_append.mp hc with hc | hc
      · exact hcalls c hc
      · exact hs c hc
    · split
      · refine ⟨(pattern.Match tablePat item).2 ++ [Call.findColumns dbName item],
          by simp, ?_⟩
        intro c hc
        rcases List.mem_append.mp hc with hc | hc
        · exact hcalls c hc
        · simp only [List.mem_singleton] at hc; subst hc; rfl
      · split
        · refine ⟨(pattern.Match tablePat item).2 ++
            [Call.findColumns dbName item, Call.convert item], by simp, ?_⟩
          intro c hc
          rcases List.mem_append.mp hc with hc | hc
          · exact hcalls c hc
          · simp only [List.mem_cons, List.mem_singleton, List.not_mem_nil, or_false] at hc
            rcases hc with rfl | rfl <;> rfl
        · rename_i table _
          obtain ⟨extra, he, hs⟩ := ih (mapSet m item table)
            (h ++ (pattern.Match tablePat item).2 ++ [Call.findColumns dbName item] ++
              [Call.convert item])
          refine ⟨(pattern.Match tablePat item).2 ++
            [Call.findColumns dbName item, Call.convert item] ++ extra, by rw [he]; simp, ?_⟩
          intro c hc
          simp only [List.mem_append, List.mem_cons, List.mem_singleton, List.not_mem_nil,
            or_false] at hc
          rcases hc with (hc | rfl | rfl) | hc
          · exact hcalls c hc
          · rfl
          · rfl
          · exact hs c hc

theorem postgresScan_history (env : Env ColumnData Table Config) (schema pat : GoString)
    (tables : List GoString) (m : List (GoString × Table)) (h : List Call) :
    ∃ extra, (postgresScan env schema pat tables m h).2 = h ++ extra ∧
      ∀ c ∈ extra, c.isScan = true := by
  induction tables generalizing m h with
  | nil => exact ⟨[], by simp [postgresScan]⟩
  | cons item rest ih =>
    simp only [postgresScan]
    split
    · exact ⟨[Call.filepathMatch pat item], by simp, by simp [Call.isScan]⟩
    · obtain ⟨extra, he, hs⟩ := ih m (h ++ [Call.filepathMatch pat item])
      refine ⟨Call.filepathMatch pat item :: extra, by simp [he], ?_⟩
      intro c hc
      rcases List.mem_cons.mp hc with rfl | hc
      · rfl
      · exact hs c hc
    · split
      · exact ⟨[Call.filepathMatch pat item, Call.findColumns schema item], by simp,
          by simp [Call.isScan]⟩
      · split
        · exact ⟨[Call.filepathMatch pat item, Call.findColumns schema item,
            Call.convert item], by simp, by simp [Call.isScan]⟩
        · rename_i table _
          obtain ⟨extra, he, hs⟩ := ih (mapSet m item table)
            (h ++ [Call.filepathMatch pat item] ++ [Call.findColumns schema item] ++
              [Call.convert item])
          refine ⟨[Call.filepathMatch pat item, Call.findColumns schema item,
            Call.convert item] ++ extra, by rw [he]; simp, ?_⟩
          intro c hc
          simp only [List.mem_append, List.mem_cons, List.mem_singleton, List.not_mem_nil,
            or_false] at hc
          rcases hc with (rfl | rfl | rfl) | hc
          · rfl
          · rfl
          · rfl
          · exact hs c hc

theorem filter_isBackend_of_isScan (l : List Call) (h : ∀ c ∈ l, c.isScan = true) :
    l.filter Call.isBackend = [] := by
  rw [List.filter_eq_nil_iff]
  intro c hc
  have := h c hc
  cases c <;> simp_all [Call.isScan, Call.isBackend]

theorem mysqlScan_nomatch (env : Env ColumnData Table Config) (dbName : GoString)
    (tablePat : pattern) (tables : List GoString) (m : List (GoString × Table))
    (h : List Call) (hno : ∀ t ∈ tables, (pattern.Match tablePat t).1 = false) :
    mysqlScan env dbName tablePat tables m h =
      (.ok m, h ++ tables.flatMap (fun t => (pattern.Match tablePat t).2)) := by
  induction tables generalizing h with
  | nil => simp [mysqlScan]
  | cons item rest ih =>
    have h1 := hno item (by simp)
    simp only [mysqlScan, h1]
    rw [ih]
    · simp
    · intro t ht
      exact hno t (by simp [ht])

theorem postgresScan_skip_nomatch (env : Env ColumnData Table Config) (schema pat : GoString)
    (pre rest : List GoString) (m : List (GoString × Table)) (h : List Call)
    (hno : ∀ t ∈ pre, filepathMatch pat t = (false, none)) :
    postgresScan env schema pat (pre ++ rest) m h =
      postgresScan env schema pat rest m (h ++ pre.map (Call.filepathMatch pat)) := by
  induction pre generalizing h with
  | nil => simp
  | cons item pre ih =>
    have h1 := hno item (by simp)
    simp only [List.cons_append, postgresScan, h1, List.append_eq]
    rw [ih]
    · simp
    · intro t ht
      exact hno t (by simp [ht])

theorem mysql_backend_calls (env : Env ColumnData Table Config) (url dir : GoString)
    (tablePat : pattern) (cfg : Config) (cache idea : Bool) :
    (fromMysqlDataSource env url dir tablePat cfg cache idea).2.filter Call.isBackend = [] ∨
    ∃ (m : List (GoString × Table)) (h : List Call), m ≠ [] ∧
      h.filter Call.isBackend = [] ∧
      (fromMysqlDataSource env url dir tablePat cfg cache idea).2 =
        h ++ [Call.startFromInformationSchema (mapKeys m) cache] ∧
      (fromMysqlDataSource env url dir tablePat cfg cache idea).1 =
        (env.startFromInformationSchema h m cache).map Error.foreign := by
  simp only [fromMysqlDataSource]
  split
  · left; simp [Call.isBackend]
  split
  · left; simp [Call.isBackend]
  split
  · left; simp [Call.isBackend]
  split
  · left; simp [Call.isBackend]
  rename_i dbName _ _ tables _
  split
  · next e h4 heq =>
    obtain ⟨extra, he, hs⟩ := mysqlScan_history env dbName tablePat tables [] _
    rw [heq] at he
    simp only at he
    left
    subst he
    simp [Call.isBackend, filter_isBackend_of_isScan extra hs]
  · next m h4 heq =>
    obtain ⟨extra, he, hs⟩ := mysqlScan_history env dbName tablePat tables [] _
    rw [heq] at he
    simp only at he
    have hfilter : h4.filter Call.isBackend = [] := by
      subst he
      simp [Call.isBackend, filter_isBackend_of_isScan extra hs]
    split
    · left; exact hfilter
    split
    · left; simp [Call.isBackend, hfilter]
    · right
      refine ⟨m, h4 ++ [Call.newDefaultGenerator dir false], ?_, ?_, rfl, rfl⟩
      · intro hm
        simp [hm] at *
      · simp [Call.isBackend, hfilter]

theorem postgres_backend_calls (env : Env ColumnData Table Config)
    (url pat dir schema : GoString) (cfg : Config) (cache idea : Bool) :
    (fromPostgreSqlDataSource env url pat dir schema cfg cache idea).2.filter
        Call.isBackend = [] ∨
    ∃ (m : List (GoString × Table)) (h : List Call), m ≠ [] ∧
      h.filter Call.isBackend = [] ∧
      (fromPostgreSqlDataSource env url pat dir schema cfg cache idea).2 =
        h ++ [Call.startFromInformationSchema (mapKeys m) cache] ∧
      (fromPostgreSqlDataSource env url pat dir schema cfg cache idea).1 =
        (env.startFromInformationSchema h m cache).map Error.foreign := by
  simp only [fromPostgreSqlDataSource]
  split
  · left; simp [Call.isBackend]
  split
  · left; simp [Call.isBackend]
  split
  · left; simp [Call.isBackend]
  rename_i tables _
  split
  · next e h4 heq =>
    obtain ⟨extra, he, hs⟩ := postgresScan_history env schema pat tables [] _
    rw [heq] at he
    simp only at he
    left
    subst he
    simp [Call.isBackend, filter_isBackend_of_isScan extra hs]
  · next m h4 heq =>
    obtain ⟨extra, he, hs⟩ := postgresScan_history env schema pat tables [] _
    rw [heq] at he
    simp only at he
    have hfilter : h4.filter Call.isBackend = [] := by
      subst he
      simp [Call.isBackend, filter_isBackend_of_isScan extra hs]
    split
    · left; exact hfilter
    split
    · left; simp [Call.isBackend, hfilter]
    · right
      refine ⟨m, h4 ++ [Call.newDefaultGenerator dir true], ?_, ?_, rfl, rfl⟩
      · intro hm
        simp [hm] at *
      · simp [Call.isBackend, hfilter]

theorem mysqlScan_all_succeed (env : Env ColumnData Table Config) (dbName : GoString)
    (tablePat : pattern) (tables : List GoString) (m : List (GoString × Table))
    (h : List Call)
    (hfetch : ∀ h scope item, ∃ cd, env.findColumns h scope item = .ok cd)
    (hconv : ∀ h cd, ∃ t, env.convert h cd = .ok t) :
    ∃ m1 h1, mysqlScan env dbName tablePat tables m h = (.ok m1, h1) ∧
      (∀ x, x ∈ mapKeys m1 ↔
        x ∈ mapKeys m ∨ (x ∈ tables ∧ (pattern.Match tablePat x).1 = true)) ∧
      ((mapKeys m).Nodup → (mapKeys m1).Nodup) := by
  induction tables generalizing m h with
  | nil => exact ⟨m, h, by simp [mysqlScan]⟩
  | cons item rest ih =>
    cases hm : (pattern.Match tablePat item).1 with
    | false =>
      obtain ⟨m1, h1, he, hk, hn⟩ := ih m (h ++ (pattern.Match tablePat item).2)
      refine ⟨m1, h1, by simp [mysqlScan, hm, he], ?_, hn⟩
      intro x
      rw [hk x]
      constructor
      · rintro (hx | ⟨hx, hx1⟩)
        · exact Or.inl hx
        · exact Or.inr ⟨by simp [hx], hx1⟩
      · rintro (hx | ⟨hx, hx1⟩)
        · exact Or.inl hx
        · rcases List.mem_cons.mp hx with rfl | hx
          · rw [hm] at hx1; cases hx1
          · exact Or.inr ⟨hx, hx1⟩
    | true =>
      obtain ⟨cd, hcd⟩ := hfetch (h ++ (pattern.Match tablePat item).2) dbName item
      obtain ⟨t, ht⟩ := hconv
        (h ++ (pattern.Match tablePat item).2 ++ [Call.findColumns dbName item]) cd
      obtain ⟨m1, h1, he, hk, hn⟩ := ih (mapSet m item t)
        (h ++ (pattern.Match tablePat item).2 ++ [Call.findColumns dbName item] ++
          [Call.convert item])
      refine ⟨m1, h1, by simp only [mysqlScan, hm, hcd, ht]; simpa using he, ?_, ?_⟩
      · intro x
        rw [hk x, mem_mapKeys_mapSet]
        constructor
        · rintro ((rfl | hx) | ⟨hx, hx1⟩)
          · exact Or.inr ⟨by simp, hm⟩
          · exact Or.inl hx
          · exact Or.inr ⟨by simp [hx], hx1⟩
        · rintro (hx | ⟨hx, hx1⟩)
          · exact Or.inl (Or.inr hx)
          · rcases List.mem_cons.mp hx with rfl | hx
            · exact Or.inl (Or.inl rfl)
            · exact Or.inr ⟨hx, hx1⟩
      · intro hnd
        exact hn (mapKeys_mapSet_nodup m item t hnd)

theorem postgresScan_nomatch (env : Env ColumnData Table Config) (schema pat : GoString)
    (tables : List GoString) (m : List (GoString × Table)) (h : List Call)
    (hno : ∀ t ∈ tables, filepathMatch pat t = (false, none)) :
    postgresScan env schema pat tables m h =
      (.ok m, h ++ tables.map (Call.filepathMatch pat)) := by
  have := postgresScan_skip_nomatch env schema pat tables [] m h hno
  simpa [postgresScan] using this

theorem mysql_dispatch_whole_map (env : Env ColumnData Table Config) (url dir : GoString)
    (tablePat : pattern) (cfg : Config) (cache idea : Bool) :
    (fromMysqlDataSource env url dir tablePat cfg cache idea).2.filter Call.isBackend = [] ∨
    ∃ (dbName : GoString) (tables : List GoString) (matchTables : List (GoString × Table))
      (h4 : List Call),
      env.parseDSN [Call.newConsole idea] url = .ok dbName ∧
      env.getAllTables
        [Call.newConsole idea, Call.parseDSN url, Call.logxDisable,
          Call.newMysql (trimSuffix url (go "/" ++ dbName) ++ go "/information_schema")]
        dbName = .ok tables ∧
      mysqlScan env dbName tablePat tables []
        [Call.newConsole idea, Call.parseDSN url, Call.logxDisable,
          Call.newMysql (trimSuffix url (go "/" ++ dbName) ++ go "/information_schema"),
          Call.getAllTables dbName] = (.ok matchTables, h4) ∧
      matchTables ≠ [] ∧
      h4.filter Call.isBackend = [] ∧
      (fromMysqlDataSource env url dir tablePat cfg cache idea).2 =
        h4 ++ [Call.newDefaultGenerator dir false,
          Call.startFromInformationSchema (mapKeys matchTables) cache] ∧
      (fromMysqlDataSource env url dir tablePat cfg cache idea).1 =
        (env.startFromInformationSchema (h4 ++ [Call.newDefaultGenerator dir false])
          matchTables cache).map Error.foreign := by
  simp only [fromMysqlDataSource]
  split
  · left; simp [Call.isBackend]
  split
  · left; simp [Call.isBackend]
  split
  · left; simp [Call.isBackend]
  split
  · left; simp [Call.isBackend]
  rename_i dbName hdsn _ tables htables
  split
  · next e h4 heq =>
    obtain ⟨extra, he, hs⟩ := mysqlScan_history env dbName tablePat tables [] _
    rw [heq] at he
    simp only at he
    left
    subst he
    simp [Call.isBackend, filter_isBackend_of_isScan extra hs]
  · next m h4 heq =>
    obtain ⟨extra, he, hs⟩ := mysqlScan_history env dbName tablePat tables [] _
    rw [heq] at he
    simp only at he
    have hfilter : h4.filter Call.isBackend = [] := by
      subst he
      simp [Call.isBackend, filter_isBackend_of_isScan extra hs]
    split
    · left; exact hfilter
    split
    · left; simp [Call.isBackend, hfilter]
    · right
      refine ⟨dbName, tables, m, h4, hdsn, by simpa using htables, by simpa using heq, ?_,
        hfilter, by simp, rfl⟩
      intro hm
      simp [hm] at *

theorem postgres_dispatch_whole_map (env : Env ColumnData Table Config)
    (url pat dir schema : GoString) (cfg : Config) (cache idea : Bool) :
    (fromPostgreSqlDataSource env url pat dir schema cfg cache idea).2.filter
        Call.isBackend = [] ∨
    ∃ (tables : List GoString) (matchTables : List (GoString × Table)) (h3 : List Call),
      env.getAllTables [Call.newConsole idea, Call.postgresNew url] schema = .ok tables ∧
      postgresScan env schema pat tables []
        [Call.newConsole idea, Call.postgresNew url, Call.getAllTables schema] =
          (.ok matchTables, h3) ∧
      matchTables ≠ [] ∧
      h3.filter Call.isBackend = [] ∧
      (fromPostgreSqlDataSource env url pat dir schema cfg cache idea).2 =
        h3 ++ [Call.newDefaultGenerator dir true,
          Call.startFromInformationSchema (mapKeys matchTables) cache] ∧
      (fromPostgreSqlDataSource env url pat dir schema cfg cache idea).1 =
        (env.startFromInformationSchema (h3 ++ [Call.newDefaultGenerator dir true])
          matchTables cache).map Error.foreign := by
  simp only [fromPostgreSqlDataSource]
  split
  · left; simp [Call.isBackend]
  split
  · left; simp [Call.isBackend]
  split
  · left; simp [Call.isBackend]
  rename_i tables htables
  split
  · next e h4 heq =>
    obtain ⟨extra, he, hs⟩ := postgresScan_history env schema pat tables [] _
    rw [heq] at he
    simp only at he
    left
    subst he
    simp [Call.isBackend, filter_isBackend_of_isScan extra hs]
  · next m h4 heq =>
    obtain ⟨extra, he, hs⟩ := postgresScan_history env schema pat tables [] _
    rw [heq] at he
    simp only at he
    have hfilter : h4.filter Call.isBackend = [] := by
      subst he
      simp [Call.isBackend, filter_isBackend_of_isScan extra hs]
    split
    · left; exact hfilter
    split
    · left; simp [Call.isBackend, hfilter]
    · right
      refine ⟨tables, m, h4, by simpa using htables, by simpa using heq, ?_,
        hfilter, by simp, rfl⟩
      intro hm
      simp [hm] at *

end LoopLemmas

/-! ## Claims -/

/-- C5: `pattern.Match(p, s)` is true exactly when some member of `p` glob-matches `s` without
error; a member on which `filepath.Match` reports an error never prevents another member from
matching; and the result is the same for every order in which the set is iterated. -/
theorem pattern_Match_spec :
    (∀ (p : pattern) (s : GoString),
      (pattern.Match p s).1 = true ↔ ∃ v ∈ p, filepathMatch v s = (true, none)) ∧
    (∀ (p : pattern) (s bad good : GoString), bad ∈ p → good ∈ p →
      (filepathMatch bad s).2 ≠ none → filepathMatch good s = (true, none) →
      (pattern.Match p s).1 = true) ∧
    (∀ (p q : pattern) (s : GoString), p.Perm q →
      (pattern.Match p s).1 = (pattern.Match q s).1) := by
  refine ⟨pattern_Match_fst_iff, ?_, pattern_Match_fst_perm⟩
  intro p s bad good _ hgood _ hm
  exact (pattern_Match_fst_iff p s).mpr ⟨good, hgood, hm⟩

/-- Witness for C5: the set {`[`, `user*`} against `users`, in both iteration orders. -/
theorem pattern_Match_spec_witness :
    (pattern.Match [go "[", go "user*"] (go "users")).1 = true ∧
    (pattern.Match [go "[", go "user*"] (go "users")).1 =
      (pattern.Match [go "user*", go "["] (go "users")).1 :=
  ⟨pattern_Match_spec.2.1 [go "[", go "user*"] (go "users") (go "[") (go "user*")
      (by decide) (by decide) (by decide) (by decide),
   pattern_Match_spec.2.2 [go "[", go "user*"] [go "user*", go "["] (go "users")
      (List.Perm.swap _ _ _)⟩

/-- C1 (the code at the failing inputs): with an empty `url` or an empty table pattern both
datasource pipelines return `nil`, not an error; they print one console error and call neither
table enumeration, column fetching, conversion nor the generator. -/
theorem datasource_empty_input_returns_nil {ColumnData Table Config : Type}
    (env : Env ColumnData Table Config) (url dir pat schema : GoString) (tablePat : pattern)
    (cfg : Config) (cache idea : Bool) :
    fromMysqlDataSource env [] dir tablePat cfg cache idea =
      (none, [Call.newConsole idea,
        Call.consoleError "expected data source of mysql, but nothing found"]) ∧
    (fromMysqlDataSource env url dir [] cfg cache idea).1 = none ∧
    (∀ c ∈ (fromMysqlDataSource env url dir [] cfg cache idea).2,
      c = Call.newConsole idea ∨ ∃ msg, c = Call.consoleError msg) ∧
    fromPostgreSqlDataSource env [] pat dir schema cfg cache idea =
      (none, [Call.newConsole idea,
        Call.consoleError "expected data source of postgresql, but nothing found"]) ∧
    (fromPostgreSqlDataSource env url [] dir schema cfg cache idea).1 = none ∧
    (∀ c ∈ (fromPostgreSqlDataSource env url [] dir schema cfg cache idea).2,
      c = Call.newConsole idea ∨ ∃ msg, c = Call.consoleError msg) := by
  refine ⟨by simp [fromMysqlDataSource], ?_, ?_, by simp [fromPostgreSqlDataSource], ?_, ?_⟩
  · by_cases hu : url = [] <;> simp [fromMysqlDataSource, hu]
  · by_cases hu : url = [] <;> simp [fromMysqlDataSource, hu]
  · by_cases hu : url = [] <;> simp [fromPostgreSqlDataSource, hu]
  · by_cases hu : url = [] <;> simp [fromPostgreSqlDataSource, hu]

/-- C7: in `fromDDL`, a non-blank `src` whose file matching succeeds with zero files gives
`errNotMatched` after the single call to the file matcher, so the generator is neither
constructed nor invoked; no error the file matcher can return equals `errNotMatched`; and a
`src` that is empty after trimming gives an input error before the file matcher is called. -/
theorem fromDDL_not_matched {ColumnData Table Config : Type}
    (env : Env ColumnData Table Config) (src dir : GoString) (cfg : Config)
    (cache idea : Bool) (database : GoString) :
    (env.trimSpace src ≠ [] →
      (∀ files, env.matchFiles [Call.newConsole idea] (env.trimSpace src) = .ok files →
        files.length = 0 →
        fromDDL env src dir cfg cache idea database =
          (some Error.errNotMatched,
            [Call.newConsole idea, Call.matchFiles (env.trimSpace src)])) ∧
      (∀ e, env.matchFiles [Call.newConsole idea] (env.trimSpace src) = .error e →
        (fromDDL env src dir cfg cache idea database).1 = some (Error.foreign e) ∧
        (fromDDL env src dir cfg cache idea database).1 ≠ some Error.errNotMatched)) ∧
    (env.trimSpace src = [] →
      fromDDL env src dir cfg cache idea database =
        (some (Error.errorsNew "expected path or path globbing patterns, but nothing found"),
          [Call.newConsole idea])) := by
  refine ⟨fun hne => ⟨?_, ?_⟩, ?_⟩
  · intro files hf hlen
    simp [fromDDL, hne, hf, hlen]
  · intro e he
    simp [fromDDL, hne, he]
  · intro he
    simp [fromDDL, he]

/-- Witness for C7: the sample environment, whose file matcher finds nothing. -/
theorem fromDDL_not_matched_witness :
    fromDDL (sampleEnv false) (go "*.sql") (go "out") () true false (go "shop") =
      (some Error.errNotMatched, [Call.newConsole false, Call.matchFiles (go "*.sql")]) ∧
    fromDDL (sampleEnv false) [] (go "out") () true false (go "shop") =
      (some (Error.errorsNew "expected path or path globbing patterns, but nothing found"),
        [Call.newConsole false]) :=
  ⟨((fromDDL_not_matched (sampleEnv false) (go "*.sql") (go "out") () true false
      (go "shop")).1 (by decide)).1 [] rfl rfl,
   (fromDDL_not_matched (sampleEnv false) [] (go "out") () true false (go "shop")).2 rfl⟩

/-- C2: in `fromMysqlDataSource`, when every column fetch and every conversion succeeds, the
loop over the enumerated tables ends with a selection map whose keys are exactly the enumerated
names `t` with `pattern.Match(t)` true (each key once), and that is the map handed to the
generator; with tables `users`, `user_roles`, `orders` and the pattern set {`user*`} the
generator receives exactly `users` and `user_roles`. -/
theorem mysql_selection_exact :
    (∀ {ColumnData Table Config : Type} (env : Env ColumnData Table Config)
      (dbName : GoString) (tablePat : pattern) (tables : List GoString) (h : List Call),
      tablePat ≠ [] →
      (∀ h scope item, ∃ cd, env.findColumns h scope item = .ok cd) →
      (∀ h cd, ∃ t, env.convert h cd = .ok t) →
      ∃ matchTables h1,
        mysqlScan env dbName tablePat tables [] h = (.ok matchTables, h1) ∧
        (mapKeys matchTables).Nodup ∧
        ∀ t, t ∈ mapKeys matchTables ↔ t ∈ tables ∧ (pattern.Match tablePat t).1 = true) ∧
    (∀ {ColumnData Table Config : Type} (env : Env ColumnData Table Config)
      (url dir : GoString) (tablePat : pattern) (cfg : Config) (cache idea : Bool)
      (dbName : GoString) (tables : List GoString),
      url ≠ [] → tablePat ≠ [] →
      env.parseDSN [Call.newConsole idea] url = .ok dbName →
      env.getAllTables
        [Call.newConsole idea, Call.parseDSN url, Call.logxDisable,
          Call.newMysql (trimSuffix url (go "/" ++ dbName) ++ go "/information_schema")]
        dbName = .ok tables →
      (∀ h scope item, ∃ cd, env.findColumns h scope item = .ok cd) →
      (∀ h cd, ∃ t, env.convert h cd = .ok t) →
      (∀ h, env.newDefaultGenerator h dir cfg false = none) →
      (∃ t ∈ tables, (pattern.Match tablePat t).1 = true) →
      ∃ keys h,
        (fromMysqlDataSource env url dir tablePat cfg cache idea).2 =
          h ++ [Call.startFromInformationSchema keys cache] ∧
        keys.Nodup ∧
        ∀ t, t ∈ keys ↔ t ∈ tables ∧ (pattern.Match tablePat t).1 = true) ∧
    (fromMysqlDataSource (sampleEnv false) (go "root@tcp(db)/shop") (go "out")
        [go "user*"] () true false).2.filter Call.isBackend =
      [Call.startFromInformationSchema [go "users", go "user_roles"] true] := by
  refine ⟨?_, ?_, by decide⟩
  · intro ColumnData Table Config env dbName tablePat tables h _ hfetch hconv
    obtain ⟨m1, h1, he, hk, hn⟩ :=
      mysqlScan_all_succeed env dbName tablePat tables [] h hfetch hconv
    refine ⟨m1, h1, he, hn (by simp [mapKeys]), ?_⟩
    intro t
    rw [hk t]
    simp [mapKeys]
  · intro ColumnData Table Config env url dir tablePat cfg cache idea dbName tables
      hurl hpat hdsn htables hfetch hconv hgen hsome
    obtain ⟨m1, h1, he, hk, hn⟩ :=
      mysqlScan_all_succeed env dbName tablePat tables []
        [Call.newConsole idea, Call.parseDSN url, Call.logxDisable,
          Call.newMysql (trimSuffix url (go "/" ++ dbName) ++ go "/information_schema"),
          Call.getAllTables dbName] hfetch hconv
    have hkeys : ∀ t, t ∈ mapKeys m1 ↔ t ∈ tables ∧ (pattern.Match tablePat t).1 = true := by
      intro t
      rw [hk t]
      simp [mapKeys]
    have hm1 : m1.length ≠ 0 := by
      obtain ⟨t, ht, htm⟩ := hsome
      have : t ∈ mapKeys m1 := (hkeys t).mpr ⟨ht, htm⟩
      intro h0
      rw [List.length_eq_zero.mp h0] at this
      simp [mapKeys] at this
    refine ⟨mapKeys m1, h1 ++ [Call.newDefaultGenerator dir false], ?_,
      hn (by simp [mapKeys]), hkeys⟩
    simp [fromMysqlDataSource, hurl, hpat, hdsn, htables, he, hm1, hgen]

/-- Witness for C2: the sample environment with the pattern set {`user*`}. -/
theorem mysql_selection_exact_witness :
    ∃ keys h,
      (fromMysqlDataSource (sampleEnv false) (go "root@tcp(db)/shop") (go "out")
          [go "user*"] () true false).2 =
        h ++ [Call.startFromInformationSchema keys true] ∧
      keys.Nodup ∧
      ∀ t, t ∈ keys ↔
        t ∈ [go "users", go "user_roles", go "orders"] ∧
          (pattern.Match [go "user*"] t).1 = true :=
  mysql_selection_exact.2.1 (sampleEnv false) (go "root@tcp(db)/shop") (go "out")
    [go "user*"] () true false (go "shop") [go "users", go "user_roles", go "orders"]
    (by decide) (by decide) rfl rfl (fun _ _ _ => ⟨(), rfl⟩) (fun _ _ => ⟨(), rfl⟩)
    (fun _ => rfl) ⟨go "users", by decide, by decide⟩

/-- C8 (counterexample): in `fromMysqlDataSource` three tables are selected, no invocation
fails, and the generation backend is invoked once, not three times. -/
theorem dispatch_per_entry_counterexample :
    (fromMysqlDataSource (sampleEnv false) (go "root@tcp(db)/shop") (go "out")
        [go "*"] () true false).1 = none ∧
    (fromMysqlDataSource (sampleEnv false) (go "root@tcp(db)/shop") (go "out")
        [go "*"] () true false).2.filter Call.isBackend =
      [Call.startFromInformationSchema [go "users", go "user_roles", go "orders"] true] := by
  decide

/-- C8 (amended): in `fromDDL`, once the files are matched and the generator is constructed,
`StartFromDDL` is invoked once per file in list order with the same cache flag and database
and stops at the first failure: when the first failing file is at position `k`, exactly the
first `k+1` files are dispatched and the backend's error is returned unmodified; when none
fails, every file is dispatched once and the result is `nil`. In the datasource pipelines
the backend is not invoked per entry: `StartFromInformationSchema` is invoked at most once,
as the last call, with the cache flag and with exactly the selection map that the scan of
the enumerated tables built, and its error is returned unmodified. -/
theorem dispatch_stops_at_first_failure {ColumnData Table Config : Type}
    (env : Env ColumnData Table Config) (src dir : GoString) (cfg : Config)
    (cache idea : Bool) (database : GoString) (files : List GoString)
    (hsrc : env.trimSpace src ≠ [])
    (hfiles : env.matchFiles [Call.newConsole idea] (env.trimSpace src) = .ok files)
    (hne : files ≠ [])
    (hgen : env.newDefaultGenerator
      [Call.newConsole idea, Call.matchFiles (env.trimSpace src)] dir cfg false = none) :
    (∀ (k : Nat) (fk : GoString) (e : ForeignError),
      (∀ i f, i < k → files[i]? = some f →
        env.startFromDDL
          ([Call.newConsole idea, Call.matchFiles (env.trimSpace src),
              Call.newDefaultGenerator dir false] ++
            (files.take i).map (fun x => Call.startFromDDL x cache database))
          f cache database = none) →
      files[k]? = some fk →
      env.startFromDDL
          ([Call.newConsole idea, Call.matchFiles (env.trimSpace src),
              Call.newDefaultGenerator dir false] ++
            (files.take k).map (fun x => Call.startFromDDL x cache database))
          fk cache database = some e →
      fromDDL env src dir cfg cache idea database =
        (some (Error.foreign e),
          [Call.newConsole idea, Call.matchFiles (env.trimSpace src),
              Call.newDefaultGenerator dir false] ++
            (files.take (k + 1)).map (fun x => Call.startFromDDL x cache database))) ∧
    ((∀ i f, files[i]? = some f →
        env.startFromDDL
          ([Call.newConsole idea, Call.matchFiles (env.trimSpace src),
              Call.newDefaultGenerator dir false] ++
            (files.take i).map (fun x => Call.startFromDDL x cache database))
          f cache database = none) →
      fromDDL env src dir cfg cache idea database =
        (none,
          [Call.newConsole idea, Call.matchFiles (env.trimSpace src),
              Call.newDefaultGenerator dir false] ++
            files.map (fun x => Call.startFromDDL x cache database))) ∧
    (∀ (url : GoString) (tablePat : pattern),
      (fromMysqlDataSource env url dir tablePat cfg cache idea).2.filter Call.isBackend = [] ∨
      ∃ (dbName : GoString) (tables : List GoString) (matchTables : List (GoString × Table))
        (h4 : List Call),
        env.parseDSN [Call.newConsole idea] url = .ok dbName ∧
        env.getAllTables
          [Call.newConsole idea, Call.parseDSN url, Call.logxDisable,
            Call.newMysql (trimSuffix url (go "/" ++ dbName) ++ go "/information_schema")]
          dbName = .ok tables ∧
        mysqlScan env dbName tablePat tables []
          [Call.newConsole idea, Call.parseDSN url, Call.logxDisable,
            Call.newMysql (trimSuffix url (go "/" ++ dbName) ++ go "/information_schema"),
            Call.getAllTables dbName] = (.ok matchTables, h4) ∧
        matchTables ≠ [] ∧
        h4.filter Call.isBackend = [] ∧
        (fromMysqlDataSource env url dir tablePat cfg cache idea).2 =
          h4 ++ [Call.newDefaultGenerator dir false,
            Call.startFromInformationSchema (mapKeys matchTables) cache] ∧
        (fromMysqlDataSource env url dir tablePat cfg cache idea).1 =
          (env.startFromInformationSchema (h4 ++ [Call.newDefaultGenerator dir false])
            matchTables cache).map Error.foreign) ∧
    (∀ (url pat schema : GoString),
      (fromPostgreSqlDataSource env url pat dir schema cfg cache idea).2.filter
          Call.isBackend = [] ∨
      ∃ (tables : List GoString) (matchTables : List (GoString × Table)) (h3 : List Call),
        env.getAllTables [Call.newConsole idea, Call.postgresNew url] schema = .ok tables ∧
        postgresScan env schema pat tables []
          [Call.newConsole idea, Call.postgresNew url, Call.getAllTables schema] =
            (.ok matchTables, h3) ∧
        matchTables ≠ [] ∧
        h3.filter Call.isBackend = [] ∧
        (fromPostgreSqlDataSource env url pat dir schema cfg cache idea).2 =
          h3 ++ [Call.newDefaultGenerator dir true,
            Call.startFromInformationSchema (mapKeys matchTables) cache] ∧
        (fromPostgreSqlDataSource env url pat dir schema cfg cache idea).1 =
          (env.startFromInformationSchema (h3 ++ [Call.newDefaultGenerator dir true])
            matchTables cache).map Error.foreign) := by
  have hlen : files.length ≠ 0 := by
    intro h0
    exact hne (List.length_eq_zero.mp h0)
  have hpre : fromDDL env src dir cfg cache idea database =
      ddlLoop env cache database files
        [Call.newConsole idea, Call.matchFiles (env.trimSpace src),
          Call.newDefaultGenerator dir false] := by
    simp [fromDDL, hsrc, hfiles, hlen, hgen]
  refine ⟨?_, ?_, ?_, ?_⟩
  · intro k fk e hok hk hfail
    rw [hpre]
    exact ddlLoop_first_failure env cache database files _ k fk e hok hk hfail
  · intro hok
    rw [hpre]
    exact ddlLoop_all_ok env cache database files _ hok
  · intro url tablePat
    exact mysql_dispatch_whole_map env url dir tablePat cfg cache idea
  · intro url pat schema
    exact postgres_dispatch_whole_map env url pat dir schema cfg cache idea

/-- Witness for C8: three files, the generator fails on the second; `StartFromDDL` is invoked
twice and its error comes back unchanged. -/
theorem dispatch_stops_at_first_failure_witness :
    fromDDL ddlEnv (go "*.sql") (go "out") () true false (go "shop") =
      (some (Error.foreign (.other 7)),
        [Call.newConsole false, Call.matchFiles (go "*.sql"),
          Call.newDefaultGenerator (go "out") false,
          Call.startFromDDL (go "a.sql") true (go "shop"),
          Call.startFromDDL (go "b.sql") true (go "shop")]) :=
  (dispatch_stops_at_first_failure ddlEnv (go "*.sql") (go "out") () true false (go "shop")
    [go "a.sql", go "b.sql", go "c.sql"] (by decide) rfl (by decide) rfl).1 1 (go "b.sql")
    (.other 7)
    (by
      intro i f hi hf
      have hi0 : i = 0 := by omega
      subst hi0
      simp only [List.getElem?_cons_zero, Option.some.injEq] at hf
      subst hf
      decide)
    rfl (by decide)

/-- C9 (counterexample): in `fromPostgreSqlDataSource` the malformed pattern `[` aborts the
scan at the first candidate: the pipeline returns the glob-syntax error, not
"no tables matched", and the two later candidates are never tested. -/
theorem postgres_malformed_counterexample :
    fromPostgreSqlDataSource (sampleEnv false) (go "postgres://db/shop") (go "[") (go "out")
        (go "public") () true false =
      (some (Error.foreign .errBadPattern),
        [Call.newConsole false, Call.postgresNew (go "postgres://db/shop"),
          Call.getAllTables (go "public"), Call.filepathMatch (go "[") (go "users")]) := by
  decide

/-- C9 (amended): in `fromPostgreSqlDataSource`, with a non-empty `url` and pattern, the
first enumerated candidate on which `filepath.Match` reports a syntax error ends the scan:
when the candidates before it were tested without error and did not match, the pipeline
returns that error unchanged, the later candidates are not tested, and no column is fetched
and no generator constructed. -/
theorem postgres_malformed_aborts {ColumnData Table Config : Type}
    (env : Env ColumnData Table Config) (url pat dir schema : GoString) (cfg : Config)
    (cache idea : Bool) (pre post : List GoString) (t : GoString) (err : GlobError)
    (hurl : url ≠ []) (hpat : pat ≠ [])
    (htables : env.getAllTables [Call.newConsole idea, Call.postgresNew url] schema =
      .ok (pre ++ t :: post))
    (hpre : ∀ x ∈ pre, filepathMatch pat x = (false, none))
    (hbad : (filepathMatch pat t).2 = some err) :
    fromPostgreSqlDataSource env url pat dir schema cfg cache idea =
      (some err.toError,
        [Call.newConsole idea, Call.postgresNew url, Call.getAllTables schema] ++
          (pre ++ [t]).map (Call.filepathMatch pat)) := by
  have hscan : ∀ h, postgresScan env schema pat (pre ++ t :: post) [] h =
      (.error err.toError, h ++ (pre ++ [t]).map (Call.filepathMatch pat)) := by
    intro h
    rw [postgresScan_skip_nomatch env schema pat pre (t :: post) [] h hpre]
    rcases hm : filepathMatch pat t with ⟨b, e⟩
    rw [hm] at hbad
    simp only at hbad
    subst hbad
    simp [postgresScan, hm]
  simp [fromPostgreSqlDataSource, hurl, hpat, htables, hscan]

/-- Witness for C9: the malformed pattern `[^` against the sample tables; the first candidate
already reports the syntax error. -/
theorem postgres_malformed_aborts_witness :
    fromPostgreSqlDataSource (sampleEnv false) (go "postgres://db/shop") (go "[^") (go "out")
        (go "public") () true false =
      (some (Error.foreign .errBadPattern),
        [Call.newConsole false, Call.postgresNew (go "postgres://db/shop"),
          Call.getAllTables (go "public"), Call.filepathMatch (go "[^") (go "users")]) :=
  postgres_malformed_aborts (sampleEnv false) (go "postgres://db/shop") (go "[^") (go "out")
    (go "public") () true false [] [go "user_roles", go "orders"] (go "users")
    .errBadPattern (by decide) (by decide) rfl (by simp) (by decide)

/-- C10 (counterexample): in `fromPostgreSqlDataSource` no enumerated name matches the
malformed pattern `[z`, yet the pipeline does not return "no tables matched": it returns the
glob-syntax error after testing only the first name. -/
theorem postgres_no_match_counterexample :
    (∀ t ∈ [go "users", go "user_roles", go "orders"],
      (filepathMatch (go "[z") t).1 = false) ∧
    (fromPostgreSqlDataSource (sampleEnv false) (go "postgres://db/shop") (go "[z")
        (go "out") (go "public") () true false).1 ≠
      some (Error.errorsNew "no tables matched") ∧
    Call.filepathMatch (go "[z") (go "orders") ∉
      (fromPostgreSqlDataSource (sampleEnv false) (go "postgres://db/shop") (go "[z")
        (go "out") (go "public") () true false).2 := by
  decide

/-- C10 (amended): the generator is only ever handed a non-empty selection map. In
`fromMysqlDataSource`, after a successful enumeration in which no enumerated name is matched
by a member of the pattern set, the pipeline returns "no tables matched" after testing every
name against every member, with no column fetch, no conversion and no generator call. In
`fromPostgreSqlDataSource` the same holds when `filepath.Match` answers "no match" without a
syntax error for every enumerated name. In both pipelines every call of
`StartFromInformationSchema` carries at least one table. -/
theorem no_tables_matched {ColumnData Table Config : Type}
    (env : Env ColumnData Table Config) (url dir : GoString) (cfg : Config)
    (cache idea : Bool) (tables : List GoString) :
    (∀ (tablePat : pattern) (dbName : GoString), url ≠ [] → tablePat ≠ [] →
      env.parseDSN [Call.newConsole idea] url = .ok dbName →
      env.getAllTables
        [Call.newConsole idea, Call.parseDSN url, Call.logxDisable,
          Call.newMysql (trimSuffix url (go "/" ++ dbName) ++ go "/information_schema")]
        dbName = .ok tables →
      (∀ t ∈ tables, ∀ v ∈ tablePat, filepathMatch v t ≠ (true, none)) →
      (fromMysqlDataSource env url dir tablePat cfg cache idea).1 =
        some (Error.errorsNew "no tables matched") ∧
      (∀ t ∈ tables, ∀ v ∈ tablePat, Call.filepathMatch v t ∈
        (fromMysqlDataSource env url dir tablePat cfg cache idea).2) ∧
      (∀ c ∈ (fromMysqlDataSource env url dir tablePat cfg cache idea).2,
        c.isFetchOrGenerate = false)) ∧
    (∀ (pat schema : GoString), url ≠ [] → pat ≠ [] →
      env.getAllTables [Call.newConsole idea, Call.postgresNew url] schema = .ok tables →
      (∀ t ∈ tables, filepathMatch pat t = (false, none)) →
      fromPostgreSqlDataSource env url pat dir schema cfg cache idea =
        (some (Error.errorsNew "no tables matched"),
          [Call.newConsole idea, Call.postgresNew url, Call.getAllTables schema] ++
            tables.map (Call.filepathMatch pat))) ∧
    (∀ (tablePat : pattern) (keys : List GoString) (c : Bool),
      Call.startFromInformationSchema keys c ∈
        (fromMysqlDataSource env url dir tablePat cfg cache idea).2 → keys ≠ []) ∧
    (∀ (pat schema : GoString) (keys : List GoString) (c : Bool),
      Call.startFromInformationSchema keys c ∈
        (fromPostgreSqlDataSource env url pat dir schema cfg cache idea).2 → keys ≠ []) := by
  refine ⟨?_, ?_, ?_, ?_⟩
  · intro tablePat dbName hurl hpat hdsn htables hno
    have hfalse : ∀ t ∈ tables, (pattern.Match tablePat t).1 = false := by
      intro t ht
      cases hm : (pattern.Match tablePat t).1 with
      | false => rfl
      | true =>
        obtain ⟨v, hv, hvm⟩ := (pattern_Match_fst_iff tablePat t).mp hm
        exact absurd hvm (hno t ht v hv)
    have hscan := fun h => mysqlScan_nomatch env dbName tablePat tables
      ([] : List (GoString × Table)) h hfalse
    have hrun : fromMysqlDataSource env url dir tablePat cfg cache idea =
        (some (Error.errorsNew "no tables matched"),
          [Call.newConsole idea, Call.parseDSN url, Call.logxDisable,
            Call.newMysql (trimSuffix url (go "/" ++ dbName) ++ go "/information_schema"),
            Call.getAllTables dbName] ++
            tables.flatMap (fun t => (pattern.Match tablePat t).2)) := by
      simp [fromMysqlDataSource, hurl, hpat, hdsn, htables, hscan]
    rw [hrun]
    refine ⟨rfl, ?_, ?_⟩
    · intro t ht v hv
      have := pattern_Match_false_tests_all tablePat t (hfalse t ht) v hv
      simp only [List.mem_append, List.mem_flatMap]
      exact Or.inr ⟨t, ht, this⟩
    · intro c hc
      simp only [List.mem_append, List.mem_flatMap, List.mem_cons, List.mem_singleton,
        List.not_mem_nil, or_false] at hc
      rcases hc with (rfl | rfl | rfl | rfl | rfl) | ⟨t, _, hct⟩
      · rfl
      · rfl
      · rfl
      · rfl
      · rfl
      · rcases pattern_Match_calls tablePat t c hct with ⟨v, _, rfl⟩ | rfl <;> rfl
  · intro pat schema hurl hpat htables hno
    have hscan := fun h => postgresScan_nomatch env schema pat tables
      ([] : List (GoString × Table)) h hno
    simp [fromPostgreSqlDataSource, hurl, hpat, htables, hscan]
  · intro tablePat keys c hmem
    have hb := mysql_backend_calls env url dir tablePat cfg cache idea
    rcases hb with h0 | ⟨m, h, hm, hh, hc, _⟩
    · have := List.filter_eq_nil_iff.mp h0 _ hmem
      simp [Call.isBackend] at this
    · rw [hc] at hmem
      rcases List.mem_append.mp hmem with h1 | h1
      · have := List.filter_eq_nil_iff.mp hh _ h1
        simp [Call.isBackend] at this
      · simp only [List.mem_singleton, Call.startFromInformationSchema.injEq] at h1
        rw [h1.1]
        cases m with
        | nil => exact absurd rfl hm
        | cons kv rest => simp [mapKeys]
  · intro pat schema keys c hmem
    have hb := postgres_backend_calls env url pat dir schema cfg cache idea
    rcases hb with h0 | ⟨m, h, hm, hh, hc, _⟩
    · have := List.filter_eq_nil_iff.mp h0 _ hmem
      simp [Call.isBackend] at this
    · rw [hc] at hmem
      rcases List.mem_append.mp hmem with h1 | h1
      · have := List.filter_eq_nil_iff.mp hh _ h1
        simp [Call.isBackend] at this
      · simp only [List.mem_singleton, Call.startFromInformationSchema.injEq] at h1
        rw [h1.1]
        cases m with
        | nil => exact absurd rfl hm
        | cons kv rest => simp [mapKeys]

/-- C3: the set `parseTableList` returns has as members exactly the non-empty comma-delimited
tokens of the inputs; every token is a member once however often it occurs, no member is
empty and no member contains a comma; the inputs `a,b` and `b,c` give {`a`, `b`, `c`}. -/
theorem parseTableList_members :
    (∀ (inputs : List GoString) (m : GoString),
      m ∈ parseTableList inputs ↔ ∃ inp ∈ inputs, m ∈ specTokens inp) ∧
    (∀ (inputs : List GoString), (parseTableList inputs).Nodup) ∧
    (∀ (inputs : List GoString) (m : GoString),
      m ∈ parseTableList inputs → m ≠ [] ∧ comma ∉ m) ∧
    parseTableList [go "a,b", go "b,c"] = [go "a", go "b", go "c"] := by
  refine ⟨?_, ?_, ?_, by decide⟩
  · intro inputs m
    simpa [parseTableList] using mem_parse_foldl inputs [] m
  · intro inputs
    exact nodup_parse_foldl inputs [] (by simp)
  · intro inputs m hm
    have hm' : ∃ inp ∈ inputs, m ∈ specTokens inp := by
      simpa [parseTableList] using (mem_parse_foldl inputs [] m).mp hm
    obtain ⟨inp, _, hin⟩ := hm'
    obtain ⟨hne, hfree, _⟩ := specTokens_piece inp m hin
    exact ⟨hne, fun hc => hfree comma hc rfl⟩

/-- Witness for C3: a token is a member although it occurs in two inputs. -/
theorem parseTableList_members_witness :
    go "b" ∈ parseTableList [go "a,b", go "b,c"] ∧ go "b" ≠ [] ∧ comma ∉ go "b" :=
  ⟨(parseTableList_members.1 [go "a,b", go "b,c"] (go "b")).mpr
      ⟨go "a,b", by simp, by decide⟩,
   parseTableList_members.2.2.1 [go "a,b", go "b,c"] (go "b")
      ((parseTableList_members.1 [go "a,b", go "b,c"] (go "b")).mpr
        ⟨go "a,b", by simp, by decide⟩)⟩

/-- C4 (counterexample): the input `a, b` gives the members `a` and ` b`; the second one
begins with a space. -/
theorem parseTableList_untrimmed_counterexample :
    parseTableList [go "a, b"] = [go "a", go " b"] ∧
    ∃ m ∈ parseTableList [go "a, b"], ∃ b, m.head? = some b ∧ asciiSpace b = true := by
  refine ⟨by decide, go " b", by decide, 32, by decide, by decide⟩

/-- C4 (amended): `parseTableList` does not trim. Its members are exactly the non-empty
comma-free runs of bytes of an input that reach from a comma or the start of the input to a
comma or its last byte, copied unchanged, so whitespace next to a comma stays in the member
(the input `a, b` gives {`a`, ` b`}); when no input contains a whitespace byte, no member
contains one. -/
theorem parseTableList_verbatim :
    (∀ (inputs : List GoString) (m : GoString), m ∈ parseTableList inputs ↔
      m ≠ [] ∧ comma ∉ m ∧
      ∃ inp ∈ inputs, ∃ pre post, inp = pre ++ m ++ post ∧
        (pre = [] ∨ pre.getLast? = some comma) ∧ (post = [] ∨ post.head? = some comma)) ∧
    (∀ (inputs : List GoString), (∀ inp ∈ inputs, ∀ b ∈ inp, asciiSpace b = false) →
      ∀ m ∈ parseTableList inputs, ∀ b ∈ m, asciiSpace b = false) ∧
    parseTableList [go "a, b"] = [go "a", go " b"] := by
  have hmem : ∀ (inputs : List GoString) (m : GoString),
      m ∈ parseTableList inputs ↔ ∃ inp ∈ inputs, m ∈ specTokens inp := by
    intro inputs m
    simpa [parseTableList] using mem_parse_foldl inputs [] m
  have hiff : ∀ (inputs : List GoString) (m : GoString), m ∈ parseTableList inputs ↔
      m ≠ [] ∧ comma ∉ m ∧
      ∃ inp ∈ inputs, ∃ pre post, inp = pre ++ m ++ post ∧
        (pre = [] ∨ pre.getLast? = some comma) ∧ (post = [] ∨ post.head? = some comma) := by
    intro inputs m
    rw [hmem]
    constructor
    · rintro ⟨inp, hinp, hin⟩
      obtain ⟨hne, hfree, pre, post, h⟩ := specTokens_piece inp m hin
      exact ⟨hne, fun hc => hfree comma hc rfl, inp, hinp, pre, post, h⟩
    · rintro ⟨hne, hfree, inp, hinp, pre, post, hr, hpre, hpost⟩
      refine ⟨inp, hinp, specTokens_of_piece inp m pre post hr hne ?_ hpre hpost⟩
      intro x hx hxc
      exact hfree (hxc ▸ hx)
  refine ⟨hiff, ?_, by decide⟩
  intro inputs hclean m hm b hb
  obtain ⟨_, _, inp, hinp, pre, post, hr, _⟩ := (hiff inputs m).mp hm
  exact hclean inp hinp b (by rw [hr]; simp [hb])

/-- Witness for C4: the member ` b` of the input `a, b` is comma-free and stands between the
comma and the last byte of the input; the whole input `a, b` is not a member. -/
theorem parseTableList_verbatim_witness :
    (go " b" ≠ [] ∧ comma ∉ go " b" ∧
      ∃ inp ∈ [go "a, b"], ∃ pre post, inp = pre ++ go " b" ++ post ∧
        (pre = [] ∨ pre.getLast? = some comma) ∧ (post = [] ∨ post.head? = some comma)) ∧
    go "a, b" ∉ parseTableList [go "a, b"] :=
  ⟨(parseTableList_verbatim.1 [go "a, b"] (go " b")).mp (by decide),
   fun h => ((parseTableList_verbatim.1 [go "a, b"] (go "a, b")).mp h).2.1 (by decide)⟩

/-- C6 (counterexample): the candidate `[a]` is equal to the text of the only member of
{`[a]`}, yet `pattern.Match` returns false, because `[a]` is a character class matching `a`;
likewise the member `\a` matches `a` and not its own text. -/
theorem pattern_self_match_counterexample :
    go "[a]" ∈ ([go "[a]"] : pattern) ∧ (pattern.Match [go "[a]"] (go "[a]")).1 = false ∧
    (pattern.Match [go "\\a"] (go "\\a")).1 = false := by
  decide

/-- C6 (amended): for every pattern set and every candidate that is equal to the text of a
member containing neither `[` nor `\` (literal bytes, `*` and `?` only), `pattern.Match`
returns true. -/
theorem pattern_Match_own_text (p : pattern) (s : GoString) (hmem : s ∈ p)
    (hs : ∀ b ∈ s, isClassOrEscape b = false) : (pattern.Match p s).1 = true :=
  (pattern_Match_fst_iff p s).mpr ⟨s, hmem, filepathMatch_self s hs⟩

/-- Witness for C6: the candidate `user*` and the set {`orders`, `user*`}. -/
theorem pattern_Match_own_text_witness :
    (pattern.Match [go "orders", go "user*"] (go "user*")).1 = true :=
  pattern_Match_own_text [go "orders", go "user*"] (go "user*") (by decide) (by decide)

/-- Witness for C10: no sample table is matched by a member of {`x*`, `[`}, and no sample
table matches the single pattern `x*`. -/
theorem no_tables_matched_witness :
    (fromMysqlDataSource (sampleEnv false) (go "root@tcp(db)/shop") (go "out")
        [go "x*", go "["] () true false).1 = some (Error.errorsNew "no tables matched") ∧
    fromPostgreSqlDataSource (sampleEnv false) (go "postgres://db/shop") (go "x*") (go "out")
        (go "public") () true false =
      (some (Error.errorsNew "no tables matched"),
        [Call.newConsole false, Call.postgresNew (go "postgres://db/shop"),
          Call.getAllTables (go "public")] ++
          [go "users", go "user_roles", go "orders"].map (Call.filepathMatch (go "x*"))) :=
  ⟨((no_tables_matched (sampleEnv false) (go "root@tcp(db)/shop") (go "out") () true false
      [go "users", go "user_roles", go "orders"]).1 [go "x*", go "["] (go "shop")
      (by decide) (by decide) rfl rfl (by decide)).1,
   (no_tables_matched (sampleEnv false) (go "postgres://db/shop") (go "out") () true false
      [go "users", go "user_roles", go "orders"]).2.1 (go "x*") (go "public")
      (by decide) (by decide) rfl (by decide)⟩

end Goctl
